import Mathlib

/-!
Verification of `go/pkg/bertymessenger/replay.go` (berty).

The Go code is a replay engine: `replayLogsToDB` fetches the account
configuration, ensures an account record for the home group, drains the home
group's metadata log, lists all conversations, and for each conversation
activates it (when non-home), drains its metadata log (when non-home), drains
its message log, and deactivates it (when non-home).

We embed the code as a trace-producing interpreter over an `Env` that models
the external collaborators (protocol client streams, local store, projection
handler).  Group public keys are byte strings (`List Nat`); the base64
encoding used by the code (`b64EncodeBytes` / `b64DecodeBytes`) is injective
and lossless, so traces record the raw bytes, and a conversation record is
modelled by the *result* of decoding its stored key (`Except Nat Bytes`,
`.error n` standing for a key that fails base64 decoding with error `n`).

Errors mirror the `errcode` wrapping discipline of the source:
`Err.wrap k inner` is `k.Wrap(inner)`; `ErrKind.todo` is `errcode.TODO`,
the generic uncategorized code.  Note `replay.go` lines 108-110 and 142-145
wrap the *outer* (nil) open-error when the context is cancelled, which we
model as `Err.wrapNil k`. `handleMetadataEvent` errors are returned
unchanged (line 120), modelled as `Err.base h` with `h` the handler's own
(already categorized) error.
-/

namespace BertyReplay

/-- Raw group public key bytes (`[]byte` in Go). -/
abbrev Bytes := List Nat

instance {ε α : Type} [DecidableEq ε] [DecidableEq α] :
    DecidableEq (Except ε α) := fun a b =>
  match a, b with
  | .error x, .error y =>
    if h : x = y then .isTrue (by rw [h])
    else .isFalse (by intro hc; cases hc; exact h rfl)
  | .error _, .ok _ => .isFalse (by intro hc; cases hc)
  | .ok _, .error _ => .isFalse (by intro hc; cases hc)
  | .ok x, .ok y =>
    if h : x = y then .isTrue (by rw [h])
    else .isFalse (by intro hc; cases hc; exact h rfl)

/-- The distinct `errcode` codes appearing in `replay.go`. -/
inductive ErrKind
  | todo            -- errcode.TODO
  | dbWrite         -- errcode.ErrDBWrite
  | dbRead          -- errcode.ErrDBRead
  | deserialization -- errcode.ErrDeserialization
  | groupActivate   -- errcode.ErrGroupActivate
  | groupDeactivate -- errcode.ErrGroupDeactivate
  | replayMeta      -- errcode.ErrReplayProcessGroupMetadata
  | replayMsg       -- errcode.ErrReplayProcessGroupMessage
  | listMeta        -- errcode.ErrEventListMetadata
  | listMsg         -- errcode.ErrEventListMessage
  deriving DecidableEq, Repr

/-- An error value: either an underlying collaborator error (opaque code `n`)
or an errcode wrapping.  `wrapNil k` models `k.Wrap(nil)` (which the Go
errcode package still reports as a non-nil error of kind `k`). -/
inductive Err
  | base (n : Nat)
  | wrap (k : ErrKind) (inner : Err)
  | wrapNil (k : ErrKind)
  deriving DecidableEq, Repr

/-- Observable calls issued by the replay engine, in program order.
`ensureAccount` is `db.addAccount`; `applyMeta` is
`handler.handleMetadataEvent` during the drain of group `g`'s metadata log;
`applyMsg g raw m` is `handler.handleAppMessage` with the (injectively
encoded) key of `g`, the raw message `raw` and the unmarshalled payload `m`;
`openMeta`/`openMsg` are the `GroupMetadataList`/`GroupMessageList` stream
openings. -/
inductive Ev
  | ensureAccount (pk : Bytes) (name : String)
  | activate (g : Bytes)
  | deactivate (g : Bytes)
  | openMeta (g : Bytes)
  | openMsg (g : Bytes)
  | applyMeta (g : Bytes) (item : Nat)
  | applyMsg (g : Bytes) (raw : Nat) (msg : Nat)
  deriving DecidableEq, Repr

/-- How a stream ends after its items: clean `io.EOF` or a transport error. -/
inductive Stop
  | eof
  | fail (e : Nat)
  deriving DecidableEq, Repr

/-- Behaviour of one `GroupMetadataList` stream: an open-time error, the
items it delivers, its terminator, and the loop-top index (if any) from which
the sub-context reports cancellation (`subCtx.Err() != nil`); cancellation is
monotone, so it holds at every later loop top as well. -/
structure MetaStreamSpec where
  openErr : Option Nat
  items : List Nat
  stop : Stop
  cancelAt : Option Nat
  deriving Repr

/-- One received message item: the raw bytes (opaque code) and the result of
`proto.Unmarshal` on its payload (`none` = unmarshal failure). -/
structure MsgItem where
  raw : Nat
  decoded : Option Nat
  deriving DecidableEq, Repr

/-- Behaviour of one `GroupMessageList` stream. -/
structure MsgStreamSpec where
  openErr : Option Nat
  items : List MsgItem
  stop : Stop
  cancelAt : Option Nat
  deriving Repr

/-- The environment: all external collaborators of `replayLogsToDB`.
`cfg` is `InstanceGetConfiguration` (error, or the home group's
`AccountGroupPK`); `convs` is `getAllConversations` (error, or the per-record
base64-decode results of the stored public keys, in store order);
`metaHandler`/`msgHandler` give the projection handler's verdict per item. -/
structure Env where
  cfg : Except Nat Bytes
  addAccountErr : Option Nat
  convs : Except Nat (List (Except Nat Bytes))
  activateErr : Bytes → Option Nat
  deactivateErr : Bytes → Option Nat
  metaStream : Bytes → MetaStreamSpec
  msgStream : Bytes → MsgStreamSpec
  metaHandler : Nat → Option Nat
  msgHandler : Nat → Option Nat

/-- Whether `subCtx.Err() != nil` is observed at loop-top index `idx`. -/
def cancelHit (cancelAt : Option Nat) (idx : Nat) : Bool :=
  match cancelAt with
  | none => false
  | some k => k ≤ idx

/-- The receive loop of `processMetadataList` (replay.go:107-122): check
cancellation, receive (EOF ends cleanly, transport error is a list-error),
hand the item to `handleMetadataEvent`, whose error is returned unchanged. -/
def metaLoop (env : Env) (g : Bytes) (c : Option Nat) (stop : Stop) :
    Nat → List Nat → List Ev × Option Err
  | idx, items =>
    if cancelHit c idx then
      ([], some (.wrapNil .listMeta))
    else
      match items with
      | [] =>
        match stop with
        | .eof => ([], none)
        | .fail e => ([], some (.wrap .listMeta (.base e)))
      | it :: rest =>
        match env.metaHandler it with
        | some h => ([.applyMeta g it], some (.base h))
        | none =>
          let r := metaLoop env g c stop (idx + 1) rest
          (.applyMeta g it :: r.1, r.2)

/-- `processMetadataList` (replay.go:92-123): open the bounded metadata
stream (open failure is a list-error), then run the receive loop. -/
def processMetadataList (env : Env) (g : Bytes) : List Ev × Option Err :=
  let s := env.metaStream g
  match s.openErr with
  | some e => ([.openMeta g], some (.wrap .listMeta (.base e)))
  | none =>
    let r := metaLoop env g s.cancelAt s.stop 0 s.items
    (.openMeta g :: r.1, r.2)

/-- The receive loop of `processMessageList` (replay.go:142-162): check
cancellation, receive, `proto.Unmarshal` the payload (failure is an
`ErrDeserialization`), hand it to `handleAppMessage`, whose error is wrapped
with the generic `errcode.TODO`. -/
def msgLoop (env : Env) (g : Bytes) (c : Option Nat) (stop : Stop) :
    Nat → List MsgItem → List Ev × Option Err
  | idx, items =>
    if cancelHit c idx then
      ([], some (.wrapNil .listMsg))
    else
      match items with
      | [] =>
        match stop with
        | .eof => ([], none)
        | .fail e => ([], some (.wrap .listMsg (.base e)))
      | it :: rest =>
        match it.decoded with
        | none => ([], some (.wrap .deserialization (.base it.raw)))
        | some m =>
          match env.msgHandler m with
          | some h => ([.applyMsg g it.raw m], some (.wrap .todo (.base h)))
          | none =>
            let r := msgLoop env g c stop (idx + 1) rest
            (.applyMsg g it.raw m :: r.1, r.2)

/-- `processMessageList` (replay.go:125-163). -/
def processMessageList (env : Env) (g : Bytes) : List Ev × Option Err :=
  let s := env.msgStream g
  match s.openErr with
  | some e => ([.openMsg g], some (.wrap .listMsg (.base e)))
  | none =>
    let r := msgLoop env g s.cancelAt s.stop 0 s.items
    (.openMsg g :: r.1, r.2)

/-- The non-home-specific first half of one loop iteration of
`replayLogsToDB` (replay.go:61-72): activate the group (local-only) and drain
its metadata log; both steps are skipped when the group is the home group. -/
def convSetup (env : Env) (home g : Bytes) : List Ev × Option Err :=
  if g = home then ([], none)
  else
    match env.activateErr g with
    | some e => ([.activate g], some (.wrap .groupActivate (.base e)))
    | none =>
      let m := processMetadataList env g
      match m.2 with
      | some e => (.activate g :: m.1, some (.wrap .replayMeta e))
      | none => (.activate g :: m.1, none)

/-- One full loop iteration of `replayLogsToDB` (replay.go:50-87) for a
conversation whose key decoded to `g`: setup (activate + metadata, non-home
only), message drain (always), deactivate (non-home only, success path
only). -/
def processConv (env : Env) (home g : Bytes) : List Ev × Option Err :=
  let p := convSetup env home g
  match p.2 with
  | some e => (p.1, some e)
  | none =>
    let m := processMessageList env g
    match m.2 with
    | some e => (p.1 ++ m.1, some (.wrap .replayMsg e))
    | none =>
      if g = home then (p.1 ++ m.1, none)
      else
        match env.deactivateErr g with
        | some e =>
          (p.1 ++ m.1 ++ [.deactivate g], some (.wrap .groupDeactivate (.base e)))
        | none => (p.1 ++ m.1 ++ [.deactivate g], none)

/-- The conversation loop of `replayLogsToDB` (replay.go:50-87): the stored
key is base64-decoded (failure is an `ErrDeserialization` that aborts the
whole run), then the iteration body runs; the first error aborts. -/
def processConvs (env : Env) (home : Bytes) :
    List (Except Nat Bytes) → List Ev × Option Err
  | [] => ([], none)
  | c :: rest =>
    match c with
    | .error e => ([], some (.wrap .deserialization (.base e)))
    | .ok g =>
      let p := processConv env home g
      match p.2 with
      | some e => (p.1, some e)
      | none =>
        let r := processConvs env home rest
        (p.1 ++ r.1, r.2)

/-- `replayLogsToDB` (replay.go:23-90): configuration fetch (failure wrapped
with the generic `errcode.TODO`), account creation, home-group metadata
drain, conversation listing, then the per-conversation loop. -/
def replayLogsToDB (env : Env) : List Ev × Option Err :=
  match env.cfg with
  | .error e => ([], some (.wrap .todo (.base e)))
  | .ok home =>
    match env.addAccountErr with
    | some e => ([.ensureAccount home ""], some (.wrap .dbWrite (.base e)))
    | none =>
      let m := processMetadataList env home
      match m.2 with
      | some e => (.ensureAccount home "" :: m.1, some (.wrap .replayMeta e))
      | none =>
        match env.convs with
        | .error e => (.ensureAccount home "" :: m.1, some (.wrap .dbRead (.base e)))
        | .ok cl =>
          let r := processConvs env home cl
          (.ensureAccount home "" :: m.1 ++ r.1, r.2)

/-! ### Trace observations -/

/-- The group an event concerns (`ensureAccount` concerns the home group). -/
def evGroup : Ev → Bytes
  | .ensureAccount pk _ => pk
  | .activate g => g
  | .deactivate g => g
  | .openMeta g => g
  | .openMsg g => g
  | .applyMeta g _ => g
  | .applyMsg g _ _ => g

/-- Is `e` a metadata-apply call for group `g`? -/
def isApplyMetaFor (g : Bytes) : Ev → Bool
  | .applyMeta g' _ => g' = g
  | _ => false

/-- Is `e` a message-apply call for group `g`? -/
def isApplyMsgFor (g : Bytes) : Ev → Bool
  | .applyMsg g' _ _ => g' = g
  | _ => false

/-- The metadata items handed to `handleMetadataEvent` during drains of group
`g`'s metadata log, in call order. -/
def metaCallsFor (g : Bytes) (tr : List Ev) : List Nat :=
  tr.filterMap fun e =>
    match e with
    | .applyMeta g' it => if g' = g then some it else none
    | _ => none

/-- The (raw, unmarshalled) message pairs handed to `handleAppMessage` for
group `g`, in call order. -/
def msgCallsFor (g : Bytes) (tr : List Ev) : List (Nat × Nat) :=
  tr.filterMap fun e =>
    match e with
    | .applyMsg g' r m => if g' = g then some (r, m) else none
    | _ => none

/-- Does the trace contain a metadata-apply call for `g`? -/
def hasMetaFor (g : Bytes) (tr : List Ev) : Bool :=
  tr.any (isApplyMetaFor g)

/-- Does the trace contain a message-apply call for `g`? -/
def hasMsgFor (g : Bytes) (tr : List Ev) : Bool :=
  tr.any (isApplyMsgFor g)

/-- No metadata-apply call for `g` occurs after any message-apply call for
`g`: i.e. every `applyMeta g` event precedes every `applyMsg g` event. -/
def metaPrecedesMsg (g : Bytes) : List Ev → Bool
  | [] => true
  | e :: rest =>
    (!isApplyMsgFor g e || !hasMetaFor g rest) && metaPrecedesMsg g rest

/-- Events of `tr` concerning group `g`, in order. -/
def groupEvents (g : Bytes) (tr : List Ev) : List Ev :=
  tr.filter fun e => evGroup e = g

/-- Is `e` a lifecycle (activate/deactivate) call? -/
def isLifecycle : Ev → Bool
  | .activate _ => true
  | .deactivate _ => true
  | _ => false

/-- The set (as a list) of currently-activated groups after one event. -/
def activeStep (act : List Bytes) : Ev → List Bytes
  | .activate g => g :: act
  | .deactivate g => act.erase g
  | _ => act

/-- The activated set after a whole trace. -/
def activeFold (act : List Bytes) (tr : List Ev) : List Bytes :=
  tr.foldl activeStep act

/-- Starting from activated set `act`, after every event of the trace at most
one group is in the activated state. -/
def activeRun : List Bytes → List Ev → Bool
  | _, [] => true
  | act, e :: rest =>
    let act' := activeStep act e
    decide (act'.length ≤ 1) && activeRun act' rest

/-- The expected events of a clean drain of a message stream's items. -/
def msgEvents (g : Bytes) (items : List MsgItem) : List Ev :=
  items.filterMap fun it => it.decoded.map fun m => Ev.applyMsg g it.raw m

/-- The (raw, unmarshalled) pairs of the items of a message stream that
unmarshal successfully. -/
def decodedPairs (items : List MsgItem) : List (Nat × Nat) :=
  items.filterMap fun it => it.decoded.map fun m => (it.raw, m)

/-- The outermost errcode of an error value, when it is a wrapped errcode. -/
def topKind : Err → Option ErrKind
  | .base _ => none
  | .wrap k _ => some k
  | .wrapNil k => some k

/-- Is `e` the account-creation call? -/
def isEnsure : Ev → Bool
  | .ensureAccount _ _ => true
  | _ => false

/-! ### Cleanliness predicates (decidable success of sub-runs) -/

/-- Group `g`'s metadata drain succeeds in `env`. -/
def metaClean (env : Env) (g : Bytes) : Bool :=
  (processMetadataList env g).2.isNone

/-- Group `g`'s message drain succeeds in `env`. -/
def msgClean (env : Env) (g : Bytes) : Bool :=
  (processMessageList env g).2.isNone

/-- The whole loop iteration for conversation `c` succeeds in `env`. -/
def convClean (env : Env) (home : Bytes) : Except Nat Bytes → Bool
  | .error _ => false
  | .ok g => (processConv env home g).2.isNone

/-! ### Concrete environments used to exercise the theorems -/

/-- A fully clean two-group run: home group `[1]` (2 metadata items, 1
message), plus group `[2]` (1 metadata item, 2 messages). -/
def wEnvClean : Env where
  cfg := .ok [1]
  addAccountErr := none
  convs := .ok [.ok [1], .ok [2]]
  activateErr := fun _ => none
  deactivateErr := fun _ => none
  metaStream := fun g =>
    if g = [1] then ⟨none, [10, 11], .eof, none⟩
    else ⟨none, [20], .eof, none⟩
  msgStream := fun g =>
    if g = [1] then ⟨none, [⟨40, some 140⟩], .eof, none⟩
    else ⟨none, [⟨30, some 130⟩, ⟨31, some 131⟩], .eof, none⟩
  metaHandler := fun _ => none
  msgHandler := fun _ => none

/-- Like `wEnvClean`, but group `[2]`'s metadata stream hits a transport
error after delivering one item. -/
def wEnvMetaFail : Env where
  cfg := .ok [1]
  addAccountErr := none
  convs := .ok [.ok [1], .ok [2], .ok [3]]
  activateErr := fun _ => none
  deactivateErr := fun _ => none
  metaStream := fun g =>
    if g = [1] then ⟨none, [10, 11], .eof, none⟩
    else ⟨none, [20], .fail 5, none⟩
  msgStream := fun _ => ⟨none, [], .eof, none⟩
  metaHandler := fun _ => none
  msgHandler := fun _ => none

/-- Like `wEnvClean`, but the second item of group `[2]`'s message stream
fails to unmarshal. -/
def wEnvMsgBad : Env where
  cfg := .ok [1]
  addAccountErr := none
  convs := .ok [.ok [1], .ok [2], .ok [3]]
  activateErr := fun _ => none
  deactivateErr := fun _ => none
  metaStream := fun g =>
    if g = [1] then ⟨none, [10, 11], .eof, none⟩
    else ⟨none, [20], .eof, none⟩
  msgStream := fun g =>
    if g = [2] then ⟨none, [⟨30, some 130⟩, ⟨31, none⟩, ⟨32, some 132⟩], .eof, none⟩
    else ⟨none, [], .eof, none⟩
  metaHandler := fun _ => none
  msgHandler := fun _ => none

/-- The configuration fetch itself fails (with underlying error 7). -/
def wEnvCfgFail : Env where
  cfg := .error 7
  addAccountErr := none
  convs := .ok []
  activateErr := fun _ => none
  deactivateErr := fun _ => none
  metaStream := fun _ => ⟨none, [], .eof, none⟩
  msgStream := fun _ => ⟨none, [], .eof, none⟩
  metaHandler := fun _ => none
  msgHandler := fun _ => none

/-- The projection handler rejects message payload 130 (with error 9). -/
def wEnvHandlerErr : Env where
  cfg := .ok [1]
  addAccountErr := none
  convs := .ok [.ok [1]]
  activateErr := fun _ => none
  deactivateErr := fun _ => none
  metaStream := fun _ => ⟨none, [], .eof, none⟩
  msgStream := fun _ => ⟨none, [⟨30, some 130⟩], .eof, none⟩
  metaHandler := fun _ => none
  msgHandler := fun m => if m = 130 then some 9 else none

/-- The home group's metadata drain observes cancellation at loop index 1. -/
def wEnvMetaCancel : Env where
  cfg := .ok [1]
  addAccountErr := none
  convs := .ok []
  activateErr := fun _ => none
  deactivateErr := fun _ => none
  metaStream := fun _ => ⟨none, [10, 11], .eof, some 1⟩
  msgStream := fun _ => ⟨none, [], .eof, none⟩
  metaHandler := fun _ => none
  msgHandler := fun _ => none

/-- Group `[2]`'s message drain observes cancellation at loop index 1. -/
def wEnvMsgCancel : Env where
  cfg := .ok [1]
  addAccountErr := none
  convs := .ok [.ok [2]]
  activateErr := fun _ => none
  deactivateErr := fun _ => none
  metaStream := fun g =>
    if g = [1] then ⟨none, [10], .eof, none⟩
    else ⟨none, [20], .eof, none⟩
  msgStream := fun _ => ⟨none, [⟨30, some 130⟩, ⟨31, some 131⟩], .eof, some 1⟩
  metaHandler := fun _ => none
  msgHandler := fun _ => none

/-- Group `[2]`'s message stream ends in a transport error. -/
def wEnvMsgFail : Env where
  cfg := .ok [1]
  addAccountErr := none
  convs := .ok [.ok [1], .ok [2], .ok [3]]
  activateErr := fun _ => none
  deactivateErr := fun _ => none
  metaStream := fun g =>
    if g = [1] then ⟨none, [10], .eof, none⟩
    else ⟨none, [20], .eof, none⟩
  msgStream := fun g =>
    if g = [2] then ⟨none, [⟨30, some 130⟩], .fail 6, none⟩
    else ⟨none, [], .eof, none⟩
  metaHandler := fun _ => none
  msgHandler := fun _ => none

/-- The second conversation record's stored key fails base64 decoding. -/
def wEnvBadConv : Env where
  cfg := .ok [1]
  addAccountErr := none
  convs := .ok [.ok [2], .error 9, .ok [3]]
  activateErr := fun _ => none
  deactivateErr := fun _ => none
  metaStream := fun _ => ⟨none, [10], .eof, none⟩
  msgStream := fun _ => ⟨none, [⟨30, some 130⟩], .eof, none⟩
  metaHandler := fun _ => none
  msgHandler := fun _ => none

/-- The store's conversation list does not contain the home group `[1]`. -/
def wEnvNoHome : Env where
  cfg := .ok [1]
  addAccountErr := none
  convs := .ok [.ok [2]]
  activateErr := fun _ => none
  deactivateErr := fun _ => none
  metaStream := fun _ => ⟨none, [10], .eof, none⟩
  msgStream := fun _ => ⟨none, [⟨30, some 130⟩], .eof, none⟩
  metaHandler := fun _ => none
  msgHandler := fun _ => none

/-! ### Drain-loop lemmas -/

theorem metaLoop_none (env : Env) (g : Bytes) (c : Option Nat) (stop : Stop) :
    ∀ (items : List Nat) (idx : Nat),
      (metaLoop env g c stop idx items).2 = none →
      (metaLoop env g c stop idx items).1 = items.map (Ev.applyMeta g) := by
  intro items
  induction items with
  | nil =>
    intro idx h
    by_cases hc : cancelHit c idx = true
    · simp [metaLoop, hc] at h
    · cases stop with
      | eof => simp [metaLoop, hc]
      | fail e => simp [metaLoop, hc] at h
  | cons it rest ih =>
    intro idx h
    by_cases hc : cancelHit c idx = true
    · simp [metaLoop, hc] at h
    · cases hh : env.metaHandler it with
      | some e => simp [metaLoop, hc, hh] at h
      | none =>
        simp only [metaLoop, hc, hh, if_false, if_neg] at h ⊢
        simp [ih (idx + 1) h]

theorem metaLoop_fail (env : Env) (g : Bytes) (stop : Stop) (te : Nat)
    (hstop : stop = .fail te) :
    ∀ (items : List Nat) (idx : Nat),
      (∀ it ∈ items, env.metaHandler it = none) →
      metaLoop env g none stop idx items =
        (items.map (Ev.applyMeta g), some (.wrap .listMeta (.base te))) := by
  intro items
  induction items with
  | nil =>
    intro idx _
    simp [metaLoop, cancelHit, hstop]
  | cons it rest ih =>
    intro idx hcl
    have h1 : env.metaHandler it = none := hcl it (by simp)
    have h2 : ∀ x ∈ rest, env.metaHandler x = none := fun x hx => hcl x (by simp [hx])
    simp [metaLoop, cancelHit, h1, ih (idx + 1) h2]

theorem metaLoop_cancel (env : Env) (g : Bytes) (stop : Stop) :
    ∀ (j : Nat) (items : List Nat) (idx : Nat),
      j ≤ items.length →
      (∀ it ∈ items.take j, env.metaHandler it = none) →
      metaLoop env g (some (idx + j)) stop idx items =
        ((items.take j).map (Ev.applyMeta g), some (.wrapNil .listMeta)) := by
  intro j
  induction j with
  | zero =>
    intro items idx _ _
    cases items <;> simp [metaLoop, cancelHit]
  | succ j ih =>
    intro items idx hlen hcl
    cases items with
    | nil => simp at hlen
    | cons it rest =>
      have h1 : env.metaHandler it = none := hcl it (by simp)
      have h2 : ∀ x ∈ rest.take j, env.metaHandler x = none := by
        intro x hx
        exact hcl x (by simp [hx])
      have hc : cancelHit (some (idx + (j + 1))) idx = false := by
        simp [cancelHit]
      have hrec := ih rest (idx + 1) (by simpa using hlen) h2
      have harith : idx + 1 + j = idx + (j + 1) := by omega
      rw [harith] at hrec
      simp [metaLoop, hc, h1, hrec]

theorem metaLoop_events (env : Env) (g : Bytes) (c : Option Nat) (stop : Stop) :
    ∀ (items : List Nat) (idx : Nat),
      ∀ e ∈ (metaLoop env g c stop idx items).1, ∃ it, e = Ev.applyMeta g it := by
  intro items
  induction items with
  | nil =>
    intro idx e he
    simp only [metaLoop] at he
    split at he
    · simp at he
    · split at he <;> simp_all
  | cons it rest ih =>
    intro idx e he
    simp only [metaLoop] at he
    split at he
    · simp at he
    · cases hh : env.metaHandler it with
      | some x =>
        simp [hh] at he
        exact ⟨it, he⟩
      | none =>
        simp only [hh, List.mem_cons] at he
        rcases he with he | he
        · exact ⟨it, he⟩
        · exact ih (idx + 1) e he

theorem msgLoop_none (env : Env) (g : Bytes) (c : Option Nat) (stop : Stop) :
    ∀ (items : List MsgItem) (idx : Nat),
      (msgLoop env g c stop idx items).2 = none →
      (msgLoop env g c stop idx items).1 = msgEvents g items := by
  intro items
  induction items with
  | nil =>
    intro idx h
    by_cases hc : cancelHit c idx = true
    · simp [msgLoop, hc] at h
    · cases stop with
      | eof => simp [msgLoop, hc, msgEvents]
      | fail e => simp [msgLoop, hc] at h
  | cons it rest ih =>
    intro idx h
    by_cases hc : cancelHit c idx = true
    · simp [msgLoop, hc] at h
    · cases hd : it.decoded with
      | none => simp [msgLoop, hc, hd] at h
      | some m =>
        cases hh : env.msgHandler m with
        | some e => simp [msgLoop, hc, hd, hh] at h
        | none =>
          simp only [msgLoop, hc, hd, hh, if_false, if_neg] at h ⊢
          simp [msgEvents, hd, ih (idx + 1) h]

theorem msgLoop_deser (env : Env) (g : Bytes) (stop : Stop) (bad : MsgItem)
    (hbad : bad.decoded = none) :
    ∀ (a b : List MsgItem) (idx : Nat),
      (∀ it ∈ a, ∃ m, it.decoded = some m ∧ env.msgHandler m = none) →
      msgLoop env g none stop idx (a ++ bad :: b) =
        (msgEvents g a, some (.wrap .deserialization (.base bad.raw))) := by
  intro a
  induction a with
  | nil =>
    intro b idx _
    simp [msgLoop, cancelHit, hbad, msgEvents]
  | cons it rest ih =>
    intro b idx hcl
    obtain ⟨m, hm, hh⟩ := hcl it (by simp)
    have h2 : ∀ x ∈ rest, ∃ m, x.decoded = some m ∧ env.msgHandler m = none :=
      fun x hx => hcl x (by simp [hx])
    simp [msgLoop, cancelHit, hm, hh, ih b (idx + 1) h2, msgEvents]

theorem msgLoop_cancel (env : Env) (g : Bytes) (stop : Stop) :
    ∀ (j : Nat) (items : List MsgItem) (idx : Nat),
      j ≤ items.length →
      (∀ it ∈ items.take j, ∃ m, it.decoded = some m ∧ env.msgHandler m = none) →
      msgLoop env g (some (idx + j)) stop idx items =
        (msgEvents g (items.take j), some (.wrapNil .listMsg)) := by
  intro j
  induction j with
  | zero =>
    intro items idx _ _
    cases items <;> simp [msgLoop, cancelHit, msgEvents]
  | succ j ih =>
    intro items idx hlen hcl
    cases items with
    | nil => simp at hlen
    | cons it rest =>
      obtain ⟨m, hm, hh⟩ := hcl it (by simp)
      have h2 : ∀ x ∈ rest.take j, ∃ m, x.decoded = some m ∧ env.msgHandler m = none := by
        intro x hx
        exact hcl x (by simp [hx])
      have hc : cancelHit (some (idx + (j + 1))) idx = false := by
        simp [cancelHit]
      have hrec := ih rest (idx + 1) (by simpa using hlen) h2
      have harith : idx + 1 + j = idx + (j + 1) := by omega
      rw [harith] at hrec
      simp [msgLoop, hc, hm, hh, hrec, msgEvents]

theorem msgLoop_events (env : Env) (g : Bytes) (c : Option Nat) (stop : Stop) :
    ∀ (items : List MsgItem) (idx : Nat),
      ∀ e ∈ (msgLoop env g c stop idx items).1, ∃ r m, e = Ev.applyMsg g r m := by
  intro items
  induction items with
  | nil =>
    intro idx e he
    simp only [msgLoop] at he
    split at he
    · simp at he
    · split at he <;> simp_all
  | cons it rest ih =>
    intro idx e he
    simp only [msgLoop] at he
    split at he
    · simp at he
    · cases hd : it.decoded with
      | none => simp [hd] at he
      | some m =>
        simp only [hd] at he
        cases hh : env.msgHandler m with
        | some x =>
          simp [hh] at he
          exact ⟨it.raw, m, he⟩
        | none =>
          simp only [hh, List.mem_cons] at he
          rcases he with he | he
          · exact ⟨it.raw, m, he⟩
          · exact ih (idx + 1) e he

/-! ### Drain-level lemmas -/

theorem processMetadataList_none (env : Env) (g : Bytes)
    (h : (processMetadataList env g).2 = none) :
    processMetadataList env g =
      (Ev.openMeta g :: (env.metaStream g).items.map (Ev.applyMeta g), none) := by
  unfold processMetadataList at h ⊢
  cases ho : (env.metaStream g).openErr with
  | some e => simp [ho] at h
  | none =>
    simp only [ho] at h ⊢
    have hml := metaLoop_none env g (env.metaStream g).cancelAt (env.metaStream g).stop
      (env.metaStream g).items 0 (by simpa using h)
    simp [hml, h]

theorem processMetadataList_events (env : Env) (g : Bytes) :
    ∀ e ∈ (processMetadataList env g).1,
      e = Ev.openMeta g ∨ ∃ it, e = Ev.applyMeta g it := by
  intro e he
  unfold processMetadataList at he
  cases ho : (env.metaStream g).openErr with
  | some x =>
    simp [ho] at he
    exact Or.inl he
  | none =>
    simp only [ho, List.mem_cons] at he
    rcases he with he | he
    · exact Or.inl he
    · exact Or.inr (metaLoop_events env g _ _ _ 0 e he)

theorem processMessageList_none (env : Env) (g : Bytes)
    (h : (processMessageList env g).2 = none) :
    processMessageList env g =
      (Ev.openMsg g :: msgEvents g (env.msgStream g).items, none) := by
  unfold processMessageList at h ⊢
  cases ho : (env.msgStream g).openErr with
  | some e => simp [ho] at h
  | none =>
    simp only [ho] at h ⊢
    have hml := msgLoop_none env g (env.msgStream g).cancelAt (env.msgStream g).stop
      (env.msgStream g).items 0 (by simpa using h)
    simp [hml, h]

theorem processMessageList_events (env : Env) (g : Bytes) :
    ∀ e ∈ (processMessageList env g).1,
      e = Ev.openMsg g ∨ ∃ r m, e = Ev.applyMsg g r m := by
  intro e he
  unfold processMessageList at he
  cases ho : (env.msgStream g).openErr with
  | some x =>
    simp [ho] at he
    exact Or.inl he
  | none =>
    simp only [ho, List.mem_cons] at he
    rcases he with he | he
    · exact Or.inl he
    · exact Or.inr (msgLoop_events env g _ _ _ 0 e he)

/-! ### Per-conversation lemmas -/

theorem convSetup_home (env : Env) (home : Bytes) :
    convSetup env home home = ([], none) := by
  simp [convSetup]

theorem convSetup_none (env : Env) (home g : Bytes) (hg : g ≠ home)
    (h : (convSetup env home g).2 = none) :
    env.activateErr g = none ∧ (processMetadataList env g).2 = none ∧
      convSetup env home g =
        (Ev.activate g :: Ev.openMeta g ::
          (env.metaStream g).items.map (Ev.applyMeta g), none) := by
  unfold convSetup at h ⊢
  simp only [if_neg hg] at h ⊢
  cases ha : env.activateErr g with
  | some e => simp [ha] at h
  | none =>
    simp only [ha] at h ⊢
    cases hm : (processMetadataList env g).2 with
    | some e => simp [hm] at h
    | none =>
      refine ⟨trivial, rfl, ?_⟩
      have hshape := processMetadataList_none env g hm
      simp [hm, hshape]

theorem convSetup_events (env : Env) (home g : Bytes) :
    ∀ e ∈ (convSetup env home g).1,
      e = Ev.activate g ∨ e = Ev.openMeta g ∨ ∃ it, e = Ev.applyMeta g it := by
  intro e he
  unfold convSetup at he
  by_cases hg : g = home
  · simp [hg] at he
  · simp only [if_neg hg] at he
    cases ha : env.activateErr g with
    | some x =>
      simp [ha] at he
      exact Or.inl he
    | none =>
      simp only [ha] at he
      cases hm : (processMetadataList env g).2 with
      | some x =>
        simp only [hm, List.mem_cons] at he
        rcases he with he | he
        · exact Or.inl he
        · exact Or.inr (processMetadataList_events env g e he)
      | none =>
        simp only [hm, List.mem_cons] at he
        rcases he with he | he
        · exact Or.inl he
        · exact Or.inr (processMetadataList_events env g e he)

theorem processConv_events (env : Env) (home g : Bytes) :
    ∀ e ∈ (processConv env home g).1, evGroup e = g := by
  intro e he
  have hsetup : ∀ x ∈ (convSetup env home g).1, evGroup x = g := by
    intro x hx
    rcases convSetup_events env home g x hx with h | h | ⟨it, h⟩ <;>
      simp [h, evGroup]
  have hmsg : ∀ x ∈ (processMessageList env g).1, evGroup x = g := by
    intro x hx
    rcases processMessageList_events env g x hx with h | ⟨r, m, h⟩ <;>
      simp [h, evGroup]
  unfold processConv at he
  cases hp : (convSetup env home g).2 with
  | some e2 =>
    simp only [hp] at he
    exact hsetup e he
  | none =>
    simp only [hp] at he
    cases hm : (processMessageList env g).2 with
    | some e2 =>
      simp only [hm, List.mem_append] at he
      rcases he with he | he
      · exact hsetup e he
      · exact hmsg e he
    | none =>
      by_cases hg : g = home
      · simp only [hm, if_pos hg, List.mem_append] at he
        rcases he with he | he
        · exact hsetup e he
        · exact hmsg e he
      · simp only [hm, if_neg hg] at he
        cases hd : env.deactivateErr g with
        | some x =>
          simp only [hd, List.mem_append, List.mem_singleton] at he
          rcases he with (he | he) | he
          · exact hsetup e he
          · exact hmsg e he
          · simp [he, evGroup]
        | none =>
          simp only [hd, List.mem_append, List.mem_singleton] at he
          rcases he with (he | he) | he
          · exact hsetup e he
          · exact hmsg e he
          · simp [he, evGroup]

theorem processConv_home_none (env : Env) (home : Bytes)
    (h : (processConv env home home).2 = none) :
    processConv env home home =
      (Ev.openMsg home :: msgEvents home (env.msgStream home).items, none) := by
  unfold processConv at h ⊢
  rw [convSetup_home] at h ⊢
  simp only at h ⊢
  cases hm : (processMessageList env home).2 with
  | some e => simp [hm] at h
  | none =>
    have hshape := processMessageList_none env home hm
    simp [hm, hshape]

theorem processConv_nonhome_none (env : Env) (home g : Bytes) (hg : g ≠ home)
    (h : (processConv env home g).2 = none) :
    env.activateErr g = none ∧ (processMetadataList env g).2 = none ∧
      (processMessageList env g).2 = none ∧ env.deactivateErr g = none ∧
      processConv env home g =
        ((Ev.activate g :: Ev.openMeta g ::
            (env.metaStream g).items.map (Ev.applyMeta g)) ++
          (Ev.openMsg g :: msgEvents g (env.msgStream g).items) ++
          [Ev.deactivate g], none) := by
  unfold processConv at h ⊢
  cases hp : (convSetup env home g).2 with
  | some e => simp [hp] at h
  | none =>
    obtain ⟨ha, hm, hshape⟩ := convSetup_none env home g hg hp
    simp only [hp] at h ⊢
    cases hms : (processMessageList env g).2 with
    | some e => simp [hms] at h
    | none =>
      simp only [hms, if_neg hg] at h ⊢
      cases hd : env.deactivateErr g with
      | some e => simp [hd] at h
      | none =>
        refine ⟨ha, hm, trivial, rfl, ?_⟩
        have hmsshape := processMessageList_none env g hms
        simp [hd, hshape, hmsshape]

/-! ### Conversation-loop lemmas -/

theorem processConvs_cons_error (env : Env) (home : Bytes) (n : Nat)
    (rest : List (Except Nat Bytes)) :
    processConvs env home (.error n :: rest) =
      ([], some (.wrap .deserialization (.base n))) := by
  simp [processConvs]

theorem processConvs_cons_ok_fail (env : Env) (home g : Bytes) (e : Err)
    (rest : List (Except Nat Bytes)) (h : (processConv env home g).2 = some e) :
    processConvs env home (.ok g :: rest) = ((processConv env home g).1, some e) := by
  simp [processConvs, h]

theorem processConvs_cons_ok_clean (env : Env) (home g : Bytes)
    (rest : List (Except Nat Bytes)) (h : (processConv env home g).2 = none) :
    processConvs env home (.ok g :: rest) =
      ((processConv env home g).1 ++ (processConvs env home rest).1,
        (processConvs env home rest).2) := by
  simp [processConvs, h]

theorem processConvs_none_iff (env : Env) (home : Bytes) :
    ∀ l : List (Except Nat Bytes),
      (processConvs env home l).2 = none ↔ ∀ c ∈ l, convClean env home c = true := by
  intro l
  induction l with
  | nil => simp [processConvs]
  | cons c rest ih =>
    cases c with
    | error n => simp [processConvs_cons_error, convClean]
    | ok g =>
      cases hp : (processConv env home g).2 with
      | some e =>
        rw [processConvs_cons_ok_fail env home g e rest hp]
        simp [convClean, hp]
      | none =>
        rw [processConvs_cons_ok_clean env home g rest hp]
        simp [convClean, hp, ih]

theorem processConvs_append_clean (env : Env) (home : Bytes)
    (l2 : List (Except Nat Bytes)) :
    ∀ l1 : List (Except Nat Bytes),
      (∀ c ∈ l1, convClean env home c = true) →
      processConvs env home (l1 ++ l2) =
        ((processConvs env home l1).1 ++ (processConvs env home l2).1,
          (processConvs env home l2).2) := by
  intro l1
  induction l1 with
  | nil => simp [processConvs]
  | cons c rest ih =>
    intro hcl
    have hc : convClean env home c = true := hcl c (by simp)
    have hrest : ∀ x ∈ rest, convClean env home x = true :=
      fun x hx => hcl x (by simp [hx])
    cases c with
    | error n => simp [convClean] at hc
    | ok g =>
      have hp : (processConv env home g).2 = none := by
        simpa [convClean] using hc
      rw [List.cons_append, processConvs_cons_ok_clean env home g (rest ++ l2) hp,
        processConvs_cons_ok_clean env home g rest hp, ih hrest]
      simp

theorem processConvs_events (env : Env) (home : Bytes) :
    ∀ (l : List (Except Nat Bytes)) (e : Ev),
      e ∈ (processConvs env home l).1 → Except.ok (evGroup e) ∈ l := by
  intro l
  induction l with
  | nil =>
    intro e he
    simp [processConvs] at he
  | cons c rest ih =>
    intro e he
    cases c with
    | error n =>
      rw [processConvs_cons_error] at he
      simp at he
    | ok g =>
      cases hp : (processConv env home g).2 with
      | some x =>
        rw [processConvs_cons_ok_fail env home g x rest hp] at he
        have := processConv_events env home g e he
        simp [this]
      | none =>
        rw [processConvs_cons_ok_clean env home g rest hp] at he
        simp only [List.mem_append] at he
        rcases he with he | he
        · have := processConv_events env home g e he
          simp [this]
        · exact List.mem_cons_of_mem _ (ih e he)

/-! ### Replay-level unfolding lemmas -/

theorem replay_cfg_fail (env : Env) (n : Nat) (h : env.cfg = .error n) :
    replayLogsToDB env = ([], some (.wrap .todo (.base n))) := by
  simp [replayLogsToDB, h]

theorem replay_clean_unfold (env : Env) (home : Bytes)
    (cl : List (Except Nat Bytes))
    (hcfg : env.cfg = .ok home) (hacc : env.addAccountErr = none)
    (hmeta : (processMetadataList env home).2 = none)
    (hconvs : env.convs = .ok cl) :
    replayLogsToDB env =
      (Ev.ensureAccount home "" ::
          (processMetadataList env home).1 ++ (processConvs env home cl).1,
        (processConvs env home cl).2) := by
  simp [replayLogsToDB, hcfg, hacc, hmeta, hconvs]

theorem replay_home_meta_fail (env : Env) (home : Bytes) (e : Err)
    (hcfg : env.cfg = .ok home) (hacc : env.addAccountErr = none)
    (hmeta : (processMetadataList env home).2 = some e) :
    replayLogsToDB env =
      (Ev.ensureAccount home "" :: (processMetadataList env home).1,
        some (.wrap .replayMeta e)) := by
  simp [replayLogsToDB, hcfg, hacc, hmeta]

/-! ### Trace-observation lemmas -/

theorem isApplyMetaFor_false_of_group (g : Bytes) (e : Ev) (h : evGroup e ≠ g) :
    isApplyMetaFor g e = false := by
  cases e <;> simp [isApplyMetaFor, evGroup] at h ⊢ <;> simp [h]

theorem isApplyMsgFor_false_of_group (g : Bytes) (e : Ev) (h : evGroup e ≠ g) :
    isApplyMsgFor g e = false := by
  cases e <;> simp [isApplyMsgFor, evGroup] at h ⊢ <;> simp [h]

theorem metaCallsFor_append (g : Bytes) (a b : List Ev) :
    metaCallsFor g (a ++ b) = metaCallsFor g a ++ metaCallsFor g b := by
  simp [metaCallsFor]

theorem msgCallsFor_append (g : Bytes) (a b : List Ev) :
    msgCallsFor g (a ++ b) = msgCallsFor g a ++ msgCallsFor g b := by
  simp [msgCallsFor]

theorem metaCallsFor_nil_of_group (g : Bytes) :
    ∀ tr : List Ev, (∀ e ∈ tr, evGroup e ≠ g) → metaCallsFor g tr = [] := by
  intro tr
  induction tr with
  | nil => simp [metaCallsFor]
  | cons e rest ih =>
    intro h
    have he := h e (by simp)
    have hrest := ih fun x hx => h x (by simp [hx])
    cases e with
    | applyMeta g' it =>
      simp [evGroup] at he
      simp [metaCallsFor, he] at hrest ⊢
      exact hrest
    | _ => simp_all [metaCallsFor]

theorem msgCallsFor_nil_of_group (g : Bytes) :
    ∀ tr : List Ev, (∀ e ∈ tr, evGroup e ≠ g) → msgCallsFor g tr = [] := by
  intro tr
  induction tr with
  | nil => simp [msgCallsFor]
  | cons e rest ih =>
    intro h
    have he := h e (by simp)
    have hrest := ih fun x hx => h x (by simp [hx])
    cases e with
    | applyMsg g' r m =>
      simp [evGroup] at he
      simp [msgCallsFor, he] at hrest ⊢
      exact hrest
    | _ => simp_all [msgCallsFor]

theorem metaCallsFor_map_self (g : Bytes) (items : List Nat) :
    metaCallsFor g (items.map (Ev.applyMeta g)) = items := by
  induction items with
  | nil => simp [metaCallsFor]
  | cons it rest ih => simp [metaCallsFor] at ih ⊢; exact ih

theorem metaCallsFor_msgEvents (g g' : Bytes) (items : List MsgItem) :
    metaCallsFor g (msgEvents g' items) = [] := by
  induction items with
  | nil => simp [metaCallsFor, msgEvents]
  | cons it rest ih =>
    cases hd : it.decoded <;> simp [msgEvents, metaCallsFor, hd] at ih ⊢ <;>
      simpa [msgEvents, metaCallsFor] using ih

theorem msgCallsFor_msgEvents_self (g : Bytes) (items : List MsgItem) :
    msgCallsFor g (msgEvents g items) = decodedPairs items := by
  induction items with
  | nil => simp [msgCallsFor, msgEvents, decodedPairs]
  | cons it rest ih =>
    cases hd : it.decoded with
    | none =>
      simp only [msgEvents, decodedPairs, List.filterMap_cons, hd, Option.map_none] at ih ⊢
      simpa [msgEvents, decodedPairs] using ih
    | some m =>
      simp only [msgEvents, decodedPairs, List.filterMap_cons, hd, Option.map_some] at ih ⊢
      simp [msgCallsFor] at ih ⊢
      simpa [msgEvents, decodedPairs] using ih

theorem hasMetaFor_false_of_group (g : Bytes) (tr : List Ev)
    (h : ∀ e ∈ tr, evGroup e ≠ g) : hasMetaFor g tr = false := by
  simp only [hasMetaFor, List.any_eq_false]
  intro e he
  simp [isApplyMetaFor_false_of_group g e (h e he)]

theorem hasMsgFor_false_of_group (g : Bytes) (tr : List Ev)
    (h : ∀ e ∈ tr, evGroup e ≠ g) : hasMsgFor g tr = false := by
  simp only [hasMsgFor, List.any_eq_false]
  intro e he
  simp [isApplyMsgFor_false_of_group g e (h e he)]

theorem hasMetaFor_append (g : Bytes) (a b : List Ev) :
    hasMetaFor g (a ++ b) = (hasMetaFor g a || hasMetaFor g b) := by
  simp [hasMetaFor, List.any_append]

theorem hasMsgFor_append (g : Bytes) (a b : List Ev) :
    hasMsgFor g (a ++ b) = (hasMsgFor g a || hasMsgFor g b) := by
  simp [hasMsgFor, List.any_append]

theorem hasMetaFor_cons (g : Bytes) (e : Ev) (tr : List Ev) :
    hasMetaFor g (e :: tr) = (isApplyMetaFor g e || hasMetaFor g tr) := by
  simp [hasMetaFor]

theorem hasMsgFor_cons (g : Bytes) (e : Ev) (tr : List Ev) :
    hasMsgFor g (e :: tr) = (isApplyMsgFor g e || hasMsgFor g tr) := by
  simp [hasMsgFor]

theorem metaPrecedesMsg_append (g : Bytes) :
    ∀ a b : List Ev,
      metaPrecedesMsg g (a ++ b) = true ↔
        (metaPrecedesMsg g a = true ∧ metaPrecedesMsg g b = true ∧
          (hasMsgFor g a = true → hasMetaFor g b = false)) := by
  intro a
  induction a with
  | nil => simp [metaPrecedesMsg, hasMsgFor]
  | cons e rest ih =>
    intro b
    rw [List.cons_append]
    simp only [metaPrecedesMsg, Bool.and_eq_true, Bool.or_eq_true,
      hasMetaFor_append, hasMsgFor_cons, ih b]
    cases hx1 : isApplyMsgFor g e <;> cases hx2 : hasMetaFor g rest <;>
      cases hx3 : hasMetaFor g b <;> cases hx4 : hasMsgFor g rest <;>
        simp_all

theorem metaPrecedesMsg_of_no_msg (g : Bytes) :
    ∀ tr : List Ev, (∀ e ∈ tr, isApplyMsgFor g e = false) →
      metaPrecedesMsg g tr = true := by
  intro tr
  induction tr with
  | nil => simp [metaPrecedesMsg]
  | cons e rest ih =>
    intro h
    have he := h e (by simp)
    have hrest := ih fun x hx => h x (by simp [hx])
    simp [metaPrecedesMsg, he, hrest]

theorem metaPrecedesMsg_of_no_meta (g : Bytes) :
    ∀ tr : List Ev, (∀ e ∈ tr, isApplyMetaFor g e = false) →
      metaPrecedesMsg g tr = true := by
  intro tr
  induction tr with
  | nil => simp [metaPrecedesMsg]
  | cons e rest ih =>
    intro h
    have hrest : hasMetaFor g rest = false := by
      simp only [hasMetaFor, List.any_eq_false]
      intro x hx
      simp [h x (by simp [hx])]
    have hres := ih fun x hx => h x (by simp [hx])
    simp [metaPrecedesMsg, hrest, hres]

theorem groupEvents_append (g : Bytes) (a b : List Ev) :
    groupEvents g (a ++ b) = groupEvents g a ++ groupEvents g b := by
  simp [groupEvents]

theorem groupEvents_all (g : Bytes) (tr : List Ev)
    (h : ∀ e ∈ tr, evGroup e = g) : groupEvents g tr = tr := by
  simp only [groupEvents]
  exact List.filter_eq_self.2 (fun e he => by simp [h e he])

theorem groupEvents_nil_of (g : Bytes) (tr : List Ev)
    (h : ∀ e ∈ tr, evGroup e ≠ g) : groupEvents g tr = [] := by
  simp only [groupEvents]
  exact List.filter_eq_nil.2 (fun e he => by simp [h e he])

/-! ### Activation-set lemmas -/

theorem activeStep_neutral (act : List Bytes) (e : Ev) (h : isLifecycle e = false) :
    activeStep act e = act := by
  cases e <;> simp [isLifecycle] at h ⊢ <;> simp [activeStep]

theorem activeFold_neutral (tr : List Ev) :
    ∀ act : List Bytes, (∀ e ∈ tr, isLifecycle e = false) → activeFold act tr = act := by
  induction tr with
  | nil => intro act _; simp [activeFold]
  | cons e rest ih =>
    intro act h
    have h1 := activeStep_neutral act e (h e (by simp))
    have h2 := ih (activeStep act e) fun x hx => h x (by simp [hx])
    simp only [activeFold, List.foldl_cons] at h2 ⊢
    rw [h2, h1]

theorem activeFold_append (a b : List Ev) (act : List Bytes) :
    activeFold act (a ++ b) = activeFold (activeFold act a) b := by
  simp [activeFold, List.foldl_append]

theorem activeRun_neutral (tr : List Ev) :
    ∀ act : List Bytes, (∀ e ∈ tr, isLifecycle e = false) →
      act.length ≤ 1 → activeRun act tr = true := by
  induction tr with
  | nil => intro act _ _; simp [activeRun]
  | cons e rest ih =>
    intro act h hlen
    have h1 := activeStep_neutral act e (h e (by simp))
    have h2 := ih (activeStep act e) (fun x hx => h x (by simp [hx]))
      (by rw [h1]; exact hlen)
    rw [h1] at h2
    simp [activeRun, h1, hlen, h2]

theorem activeRun_append (b : List Ev) :
    ∀ (a : List Ev) (act : List Bytes),
      activeRun act (a ++ b) = (activeRun act a && activeRun (activeFold act a) b) := by
  intro a
  induction a with
  | nil => intro act; simp [activeRun, activeFold]
  | cons e rest ih =>
    intro act
    calc activeRun act ((e :: rest) ++ b)
        = (decide ((activeStep act e).length ≤ 1) &&
            activeRun (activeStep act e) (rest ++ b)) := rfl
      _ = (decide ((activeStep act e).length ≤ 1) &&
            (activeRun (activeStep act e) rest &&
              activeRun (activeFold (activeStep act e) rest) b)) := by
          rw [ih]
      _ = (activeRun act (e :: rest) && activeRun (activeFold act (e :: rest)) b) := by
          simp only [activeRun, activeFold, List.foldl_cons]
          rw [Bool.and_assoc]

theorem metaMap_notLifecycle (g : Bytes) (items : List Nat) :
    ∀ e ∈ items.map (Ev.applyMeta g), isLifecycle e = false := by
  intro e he
  simp only [List.mem_map] at he
  obtain ⟨it, _, rfl⟩ := he
  simp [isLifecycle]

theorem msgEvents_notLifecycle (g : Bytes) (items : List MsgItem) :
    ∀ e ∈ msgEvents g items, isLifecycle e = false := by
  intro e he
  simp only [msgEvents, List.mem_filterMap] at he
  obtain ⟨it, _, hm⟩ := he
  cases hd : it.decoded with
  | none => simp [hd] at hm
  | some m =>
    simp [hd] at hm
    simp [← hm, isLifecycle]

theorem processConv_activeRun (env : Env) (home g : Bytes)
    (h : (processConv env home g).2 = none) :
    activeRun [] (processConv env home g).1 = true ∧
      activeFold [] (processConv env home g).1 = [] := by
  by_cases hg : g = home
  · subst hg
    have hshape := processConv_home_none env g h
    rw [hshape]
    have hn : ∀ e ∈ Ev.openMsg g :: msgEvents g (env.msgStream g).items,
        isLifecycle e = false := by
      intro e he
      rcases List.mem_cons.1 he with he | he
      · simp [he, isLifecycle]
      · exact msgEvents_notLifecycle g _ e he
    exact ⟨activeRun_neutral _ [] hn (by simp), activeFold_neutral _ [] hn⟩
  · obtain ⟨_, _, _, _, hshape⟩ := processConv_nonhome_none env home g hg h
    rw [hshape]
    have hM : ∀ e ∈ Ev.openMeta g :: (env.metaStream g).items.map (Ev.applyMeta g),
        isLifecycle e = false := by
      intro e he
      rcases List.mem_cons.1 he with he | he
      · simp [he, isLifecycle]
      · exact metaMap_notLifecycle g _ e he
    have hE : ∀ e ∈ Ev.openMsg g :: msgEvents g (env.msgStream g).items,
        isLifecycle e = false := by
      intro e he
      rcases List.mem_cons.1 he with he | he
      · simp [he, isLifecycle]
      · exact msgEvents_notLifecycle g _ e he
    have pA : activeRun [] (Ev.activate g :: Ev.openMeta g ::
        (env.metaStream g).items.map (Ev.applyMeta g)) = true := by
      show (decide (([g] : List Bytes).length ≤ 1) &&
        activeRun [g] (Ev.openMeta g ::
          (env.metaStream g).items.map (Ev.applyMeta g))) = true
      rw [activeRun_neutral _ [g] hM (by simp)]
      rfl
    have pAf : activeFold [] (Ev.activate g :: Ev.openMeta g ::
        (env.metaStream g).items.map (Ev.applyMeta g)) = [g] := by
      show activeFold [g] (Ev.openMeta g ::
        (env.metaStream g).items.map (Ev.applyMeta g)) = [g]
      exact activeFold_neutral _ [g] hM
    have pB : activeRun [g] (Ev.openMsg g :: msgEvents g (env.msgStream g).items) = true :=
      activeRun_neutral _ [g] hE (by simp)
    have pBf : activeFold [g] (Ev.openMsg g :: msgEvents g (env.msgStream g).items) = [g] :=
      activeFold_neutral _ [g] hE
    have pD : activeRun [g] [Ev.deactivate g] = true := by
      simp [activeRun, activeStep]
    have pDf : activeFold [g] [Ev.deactivate g] = [] := by
      simp [activeFold, activeStep]
    constructor
    · rw [activeRun_append, activeRun_append, activeFold_append, pAf, pBf, pA,
        pB, pD]
      rfl
    · rw [activeFold_append, activeFold_append, pAf, pBf, pDf]

theorem processConvs_activeRun (env : Env) (home : Bytes) :
    ∀ l : List (Except Nat Bytes), (processConvs env home l).2 = none →
      activeRun [] (processConvs env home l).1 = true ∧
        activeFold [] (processConvs env home l).1 = [] := by
  intro l
  induction l with
  | nil => intro _; simp [processConvs, activeRun, activeFold]
  | cons c rest ih =>
    intro h
    cases c with
    | error n => rw [processConvs_cons_error] at h; simp at h
    | ok g =>
      cases hp : (processConv env home g).2 with
      | some e => rw [processConvs_cons_ok_fail env home g e rest hp] at h; simp at h
      | none =>
        rw [processConvs_cons_ok_clean env home g rest hp] at h ⊢
        obtain ⟨hr1, hr2⟩ := ih h
        obtain ⟨hc1, hc2⟩ := processConv_activeRun env home g hp
        refine ⟨?_, ?_⟩
        · rw [activeRun_append, hc1, hc2, hr1]
          rfl
        · rw [activeFold_append, hc2, hr2]

/-! ### Success elimination and group-membership helpers -/

theorem replay_none_elim (env : Env) (h : (replayLogsToDB env).2 = none) :
    ∃ home cl, env.cfg = .ok home ∧ env.addAccountErr = none ∧
      (processMetadataList env home).2 = none ∧ env.convs = .ok cl ∧
      (processConvs env home cl).2 = none := by
  unfold replayLogsToDB at h
  cases hcfg : env.cfg with
  | error e => simp [hcfg] at h
  | ok home =>
    simp only [hcfg] at h
    cases hacc : env.addAccountErr with
    | some e => simp [hacc] at h
    | none =>
      simp only [hacc] at h
      cases hmeta : (processMetadataList env home).2 with
      | some e => simp [hmeta] at h
      | none =>
        simp only [hmeta] at h
        cases hconvs : env.convs with
        | error e => simp [hconvs] at h
        | ok cl =>
          simp only [hconvs] at h
          exact ⟨home, cl, rfl, rfl, hmeta, rfl, by simpa using h⟩

theorem metaCallsFor_nil_of_none (g : Bytes) :
    ∀ tr : List Ev, (∀ e ∈ tr, isApplyMetaFor g e = false) →
      metaCallsFor g tr = [] := by
  intro tr
  induction tr with
  | nil => simp [metaCallsFor]
  | cons e rest ih =>
    intro h
    have he := h e (by simp)
    have hrest := ih fun x hx => h x (by simp [hx])
    cases e with
    | applyMeta g' it =>
      simp [isApplyMetaFor] at he
      simpa [metaCallsFor, he] using hrest
    | _ => simpa [metaCallsFor] using hrest

theorem processMetadataList_group (env : Env) (g : Bytes) :
    ∀ e ∈ (processMetadataList env g).1, evGroup e = g := by
  intro e he
  rcases processMetadataList_events env g e he with h | ⟨it, h⟩ <;> simp [h, evGroup]

theorem processMetadataList_no_msg (env : Env) (g h : Bytes) :
    ∀ e ∈ (processMetadataList env g).1, isApplyMsgFor h e = false := by
  intro e he
  rcases processMetadataList_events env g e he with hh | ⟨it, hh⟩ <;>
    simp [hh, isApplyMsgFor]

theorem processMessageList_no_meta (env : Env) (g h : Bytes) :
    ∀ e ∈ (processMessageList env g).1, isApplyMetaFor h e = false := by
  intro e he
  rcases processMessageList_events env g e he with hh | ⟨r, m, hh⟩ <;>
    simp [hh, isApplyMetaFor]

theorem processConv_home_no_meta (env : Env) (home h : Bytes) :
    ∀ e ∈ (processConv env home home).1, isApplyMetaFor h e = false := by
  intro e he
  unfold processConv at he
  rw [convSetup_home] at he
  simp only at he
  cases hm : (processMessageList env home).2 with
  | some x =>
    simp only [hm] at he
    exact processMessageList_no_meta env home h e (by simpa using he)
  | none =>
    simp only [hm, if_pos rfl] at he
    exact processMessageList_no_meta env home h e (by simpa using he)

theorem processConvs_no_meta_home (env : Env) (home : Bytes) :
    ∀ l : List (Except Nat Bytes),
      ∀ e ∈ (processConvs env home l).1, isApplyMetaFor home e = false := by
  intro l
  induction l with
  | nil => intro e he; simp [processConvs] at he
  | cons c rest ih =>
    intro e he
    cases c with
    | error n => rw [processConvs_cons_error] at he; simp at he
    | ok g =>
      by_cases hg : g = home
      · subst hg
        cases hp : (processConv env g g).2 with
        | some x =>
          rw [processConvs_cons_ok_fail env g g x rest hp] at he
          exact processConv_home_no_meta env g g e he
        | none =>
          rw [processConvs_cons_ok_clean env g g rest hp] at he
          rcases List.mem_append.1 he with he | he
          · exact processConv_home_no_meta env g g e he
          · exact ih e he
      · cases hp : (processConv env home g).2 with
        | some x =>
          rw [processConvs_cons_ok_fail env home g x rest hp] at he
          have := processConv_events env home g e he
          exact isApplyMetaFor_false_of_group home e (by simp [this, hg])
        | none =>
          rw [processConvs_cons_ok_clean env home g rest hp] at he
          rcases List.mem_append.1 he with he | he
          · have := processConv_events env home g e he
            exact isApplyMetaFor_false_of_group home e (by simp [this, hg])
          · exact ih e he

theorem processConvs_no_group (env : Env) (home g : Bytes)
    (l : List (Except Nat Bytes)) (hnot : Except.ok g ∉ l) :
    ∀ e ∈ (processConvs env home l).1, evGroup e ≠ g := by
  intro e he hEq
  apply hnot
  have := processConvs_events env home l e he
  rwa [hEq] at this

theorem count_eq_one_split {α : Type} [DecidableEq α] (a : α) (l : List α)
    (h : l.count a = 1) :
    ∃ l1 l2, l = l1 ++ a :: l2 ∧ a ∉ l1 ∧ a ∉ l2 := by
  have hm : a ∈ l := by
    rw [← List.count_pos_iff_mem, h]
    omega
  obtain ⟨l1, l2, rfl⟩ := List.append_of_mem hm
  refine ⟨l1, l2, rfl, ?_, ?_⟩
  · intro hmem
    have h1 : 0 < l1.count a := List.count_pos_iff_mem.2 hmem
    rw [List.count_append, List.count_cons_self] at h
    omega
  · intro hmem
    have h2 : 0 < l2.count a := List.count_pos_iff_mem.2 hmem
    rw [List.count_append, List.count_cons_self] at h
    omega

theorem metaCallsFor_cons_skip (g : Bytes) (e : Ev) (tr : List Ev)
    (h : isApplyMetaFor g e = false) :
    metaCallsFor g (e :: tr) = metaCallsFor g tr := by
  cases e with
  | applyMeta g2 it =>
    simp only [isApplyMetaFor, decide_eq_false_iff_not] at h
    simp [metaCallsFor, h]
  | _ => simp [metaCallsFor]

theorem hasMetaFor_false_of_none (g : Bytes) (tr : List Ev)
    (h : ∀ e ∈ tr, isApplyMetaFor g e = false) : hasMetaFor g tr = false := by
  simp only [hasMetaFor, List.any_eq_false]
  intro e he
  simp [h e he]

theorem hasMsgFor_false_of_none (g : Bytes) (tr : List Ev)
    (h : ∀ e ∈ tr, isApplyMsgFor g e = false) : hasMsgFor g tr = false := by
  simp only [hasMsgFor, List.any_eq_false]
  intro e he
  simp [h e he]

/-! ### Claim C1 -/

/-- C1: on a successful replay over a fixed set of groups, for each group
(the home group, or a group whose conversation record appears exactly once in
the store's list), `handleMetadataEvent` is invoked exactly once per item of
that group's metadata log, in stream-delivery order, and every such call
happens before any `handleAppMessage` call for that group's message log. -/
theorem C1_metadata_exact_order_before_messages
    (env : Env) (home g : Bytes) (cl : List (Except Nat Bytes))
    (hcfg : env.cfg = .ok home)
    (hconvs : env.convs = .ok cl)
    (hsucc : (replayLogsToDB env).2 = none)
    (hmem : g = home ∨ (g ≠ home ∧ cl.count (Except.ok g) = 1)) :
    metaCallsFor g (replayLogsToDB env).1 = (env.metaStream g).items ∧
      metaPrecedesMsg g (replayLogsToDB env).1 = true := by
  obtain ⟨home2, cl2, hcfg2, hacc, hmeta2, hconvs2, hloop2⟩ := replay_none_elim env hsucc
  rw [hcfg] at hcfg2
  injection hcfg2 with hhome
  subst hhome
  rw [hconvs] at hconvs2
  injection hconvs2 with hcl
  subst hcl
  have hunfold := replay_clean_unfold env home cl hcfg hacc hmeta2 hconvs
  rw [hunfold]
  have hmshape := processMetadataList_none env home hmeta2
  rcases hmem with hg | ⟨hg, hcount⟩
  · -- g is the home group
    subst hg
    constructor
    · rw [show Ev.ensureAccount g "" :: (processMetadataList env g).1 ++
          (processConvs env g cl).1 =
          (Ev.ensureAccount g "" :: (processMetadataList env g).1) ++
          (processConvs env g cl).1 from rfl, metaCallsFor_append]
      have hloopnil : metaCallsFor g (processConvs env g cl).1 = [] :=
        metaCallsFor_nil_of_none g _ (processConvs_no_meta_home env g cl)
      rw [hloopnil, hmshape]
      simp only [List.append_nil]
      rw [metaCallsFor_cons_skip g _ _ (by simp [isApplyMetaFor]),
        metaCallsFor_cons_skip g _ _ (by simp [isApplyMetaFor]),
        metaCallsFor_map_self]
    · rw [show Ev.ensureAccount g "" :: (processMetadataList env g).1 ++
          (processConvs env g cl).1 =
          (Ev.ensureAccount g "" :: (processMetadataList env g).1) ++
          (processConvs env g cl).1 from rfl]
      rw [metaPrecedesMsg_append]
      refine ⟨?_, ?_, ?_⟩
      · apply metaPrecedesMsg_of_no_msg
        intro e he
        rcases List.mem_cons.1 he with he | he
        · simp [he, isApplyMsgFor]
        · exact processMetadataList_no_msg env g g e he
      · exact metaPrecedesMsg_of_no_meta g _ (processConvs_no_meta_home env g cl)
      · intro _
        exact hasMetaFor_false_of_none g _ (processConvs_no_meta_home env g cl)
  · -- g is a non-home group listed exactly once
    obtain ⟨l1, l2, hsplit, hnot1, hnot2⟩ := count_eq_one_split (Except.ok g) cl hcount
    subst hsplit
    have hclean : ∀ c ∈ l1 ++ Except.ok g :: l2, convClean env home c = true :=
      (processConvs_none_iff env home _).1 hloop2
    have hclean1 : ∀ c ∈ l1, convClean env home c = true :=
      fun c hc => hclean c (by simp [hc])
    have hcleang : (processConv env home g).2 = none := by
      have := hclean (Except.ok g) (by simp)
      simpa [convClean, Option.isNone_iff_eq_none] using this
    obtain ⟨_, _, _, _, hconvshape⟩ := processConv_nonhome_none env home g hg hcleang
    rw [processConvs_append_clean env home _ l1 hclean1,
      processConvs_cons_ok_clean env home g l2 hcleang, hconvshape]
    simp only
    -- pointwise group facts for the surrounding segments
    have hpart1 : ∀ e ∈ Ev.ensureAccount home "" :: (processMetadataList env home).1,
        evGroup e ≠ g := by
      intro e he
      rcases List.mem_cons.1 he with he | he
      · simp [he, evGroup]; exact fun h => hg h.symm
      · rw [processMetadataList_group env home e he]
        exact fun h => hg h.symm
    have hl1 : ∀ e ∈ (processConvs env home l1).1, evGroup e ≠ g :=
      processConvs_no_group env home g l1 hnot1
    have hl2 : ∀ e ∈ (processConvs env home l2).1, evGroup e ≠ g :=
      processConvs_no_group env home g l2 hnot2
    have hA : ∀ e ∈ Ev.activate g :: Ev.openMeta g ::
        (env.metaStream g).items.map (Ev.applyMeta g), isApplyMsgFor g e = false := by
      intro e he
      rcases List.mem_cons.1 he with he | he
      · simp [he, isApplyMsgFor]
      · rcases List.mem_cons.1 he with he | he
        · simp [he, isApplyMsgFor]
        · obtain ⟨it, _, rfl⟩ := List.mem_map.1 he
          simp [isApplyMsgFor]
    have hB : ∀ e ∈ Ev.openMsg g :: msgEvents g (env.msgStream g).items,
        isApplyMetaFor g e = false := by
      intro e he
      rcases List.mem_cons.1 he with he | he
      · simp [he, isApplyMetaFor]
      · obtain ⟨it, _, hm⟩ := List.mem_filterMap.1 he
        cases hd : it.decoded with
        | none => simp [hd] at hm
        | some m =>
          simp [hd] at hm
          simp [← hm, isApplyMetaFor]
    constructor
    · rw [show Ev.ensureAccount home "" :: (processMetadataList env home).1 ++
          ((processConvs env home l1).1 ++
            ((Ev.activate g :: Ev.openMeta g ::
                (env.metaStream g).items.map (Ev.applyMeta g)) ++
              (Ev.openMsg g :: msgEvents g (env.msgStream g).items) ++
              [Ev.deactivate g] ++ (processConvs env home l2).1)) =
          (Ev.ensureAccount home "" :: (processMetadataList env home).1) ++
          ((processConvs env home l1).1 ++
            ((Ev.activate g :: Ev.openMeta g ::
                (env.metaStream g).items.map (Ev.applyMeta g)) ++
              (Ev.openMsg g :: msgEvents g (env.msgStream g).items) ++
              [Ev.deactivate g] ++ (processConvs env home l2).1)) from rfl]
      rw [metaCallsFor_append, metaCallsFor_append, metaCallsFor_append,
        metaCallsFor_append, metaCallsFor_append]
      rw [metaCallsFor_nil_of_group g _ hpart1, metaCallsFor_nil_of_group g _ hl1,
        metaCallsFor_nil_of_group g _ hl2,
        metaCallsFor_cons_skip g _ _ (by simp [isApplyMetaFor]),
        metaCallsFor_cons_skip g _ _ (by simp [isApplyMetaFor]),
        metaCallsFor_map_self, metaCallsFor_nil_of_none g _ hB,
        metaCallsFor_cons_skip g _ _ (by simp [isApplyMetaFor])]
      simp [metaCallsFor]
    · rw [show Ev.ensureAccount home "" :: (processMetadataList env home).1 ++
          ((processConvs env home l1).1 ++
            ((Ev.activate g :: Ev.openMeta g ::
                (env.metaStream g).items.map (Ev.applyMeta g)) ++
              (Ev.openMsg g :: msgEvents g (env.msgStream g).items) ++
              [Ev.deactivate g] ++ (processConvs env home l2).1)) =
          (Ev.ensureAccount home "" :: (processMetadataList env home).1) ++
          ((processConvs env home l1).1 ++
            ((Ev.activate g :: Ev.openMeta g ::
                (env.metaStream g).items.map (Ev.applyMeta g)) ++
              (Ev.openMsg g :: msgEvents g (env.msgStream g).items) ++
              [Ev.deactivate g] ++ (processConvs env home l2).1)) from rfl]
      have hnomsg1 : ∀ e ∈ Ev.ensureAccount home "" ::
          (processMetadataList env home).1, isApplyMsgFor g e = false :=
        fun e he => isApplyMsgFor_false_of_group g e (hpart1 e he)
      have hnomsgl1 : ∀ e ∈ (processConvs env home l1).1, isApplyMsgFor g e = false :=
        fun e he => isApplyMsgFor_false_of_group g e (hl1 e he)
      have hnometal2 : ∀ e ∈ (processConvs env home l2).1, isApplyMetaFor g e = false :=
        fun e he => isApplyMetaFor_false_of_group g e (hl2 e he)
      rw [metaPrecedesMsg_append]
      refine ⟨metaPrecedesMsg_of_no_msg g _ hnomsg1, ?_, ?_⟩
      · rw [metaPrecedesMsg_append]
        refine ⟨metaPrecedesMsg_of_no_msg g _ hnomsgl1, ?_, ?_⟩
        · rw [metaPrecedesMsg_append]
          refine ⟨?_, metaPrecedesMsg_of_no_meta g _ hnometal2, ?_⟩
          · rw [metaPrecedesMsg_append]
            refine ⟨?_, by simp [metaPrecedesMsg, isApplyMsgFor, hasMetaFor], ?_⟩
            · rw [metaPrecedesMsg_append]
              refine ⟨metaPrecedesMsg_of_no_msg g _ hA,
                metaPrecedesMsg_of_no_meta g _ hB, ?_⟩
              intro hmm
              rw [hasMsgFor_false_of_none g _ hA] at hmm
              simp at hmm
            · intro _
              apply hasMetaFor_false_of_none
              intro e he
              simp only [List.mem_singleton] at he
              simp [he, isApplyMetaFor]
          · intro _
            exact hasMetaFor_false_of_none g _ hnometal2
        · intro hmm
          rw [hasMsgFor_false_of_none g _ hnomsgl1] at hmm
          simp at hmm
      · intro hmm
        rw [hasMsgFor_false_of_none g _ hnomsg1] at hmm
        simp at hmm

/-- C1 witness: the clean two-group environment satisfies the hypotheses and
conclusion of C1 at the non-home group `[2]`. -/
theorem C1_witness :
    wEnvClean.cfg = .ok [1] ∧ wEnvClean.convs = .ok [.ok [1], .ok [2]] ∧
      (replayLogsToDB wEnvClean).2 = none ∧
      (metaCallsFor [2] (replayLogsToDB wEnvClean).1 =
          (wEnvClean.metaStream [2]).items ∧
        metaPrecedesMsg [2] (replayLogsToDB wEnvClean).1 = true) :=
  ⟨rfl, rfl, by decide,
    C1_metadata_exact_order_before_messages wEnvClean [1] [2] [.ok [1], .ok [2]]
      rfl rfl (by decide) (Or.inr ⟨by decide, by decide⟩)⟩

/-! ### Claim C2 -/

/-- C2: on a successful replay, for every non-home group (listed exactly once
by the store) the events concerning that group are exactly an `ActivateGroup`
call, then the metadata drain, then the message drain, then a
`DeactivateGroup` call — so activation precedes the first apply call and
deactivation follows the last — and, groups being processed strictly
sequentially, at most one non-home group is in the activated state at any
point of the whole run. -/
theorem C2_activate_scopes_and_single_activation
    (env : Env) (home g : Bytes) (cl : List (Except Nat Bytes))
    (hcfg : env.cfg = .ok home)
    (hconvs : env.convs = .ok cl)
    (hsucc : (replayLogsToDB env).2 = none)
    (hg : g ≠ home)
    (hcount : cl.count (Except.ok g) = 1) :
    groupEvents g (replayLogsToDB env).1 =
      (Ev.activate g :: Ev.openMeta g ::
          (env.metaStream g).items.map (Ev.applyMeta g)) ++
        (Ev.openMsg g :: msgEvents g (env.msgStream g).items) ++
        [Ev.deactivate g] ∧
      activeRun [] (replayLogsToDB env).1 = true := by
  obtain ⟨home2, cl2, hcfg2, hacc, hmeta2, hconvs2, hloop2⟩ := replay_none_elim env hsucc
  rw [hcfg] at hcfg2
  injection hcfg2 with hhome
  subst hhome
  rw [hconvs] at hconvs2
  injection hconvs2 with hcl
  subst hcl
  have hunfold := replay_clean_unfold env home cl hcfg hacc hmeta2 hconvs
  rw [hunfold]
  constructor
  · obtain ⟨l1, l2, hsplit, hnot1, hnot2⟩ := count_eq_one_split (Except.ok g) cl hcount
    subst hsplit
    have hclean : ∀ c ∈ l1 ++ Except.ok g :: l2, convClean env home c = true :=
      (processConvs_none_iff env home _).1 hloop2
    have hclean1 : ∀ c ∈ l1, convClean env home c = true :=
      fun c hc => hclean c (by simp [hc])
    have hcleang : (processConv env home g).2 = none := by
      have := hclean (Except.ok g) (by simp)
      simpa [convClean, Option.isNone_iff_eq_none] using this
    obtain ⟨_, _, _, _, hconvshape⟩ := processConv_nonhome_none env home g hg hcleang
    rw [processConvs_append_clean env home _ l1 hclean1,
      processConvs_cons_ok_clean env home g l2 hcleang, hconvshape]
    simp only
    have hpart1 : ∀ e ∈ Ev.ensureAccount home "" :: (processMetadataList env home).1,
        evGroup e ≠ g := by
      intro e he
      rcases List.mem_cons.1 he with he | he
      · simp [he, evGroup]; exact fun h => hg h.symm
      · rw [processMetadataList_group env home e he]
        exact fun h => hg h.symm
    have hconvall : ∀ e ∈ (Ev.activate g :: Ev.openMeta g ::
        (env.metaStream g).items.map (Ev.applyMeta g)) ++
          (Ev.openMsg g :: msgEvents g (env.msgStream g).items) ++
          [Ev.deactivate g], evGroup e = g := by
      intro e he
      apply processConv_events env home g
      rw [hconvshape]
      exact he
    rw [show Ev.ensureAccount home "" :: (processMetadataList env home).1 ++
        ((processConvs env home l1).1 ++
          ((Ev.activate g :: Ev.openMeta g ::
              (env.metaStream g).items.map (Ev.applyMeta g)) ++
            (Ev.openMsg g :: msgEvents g (env.msgStream g).items) ++
            [Ev.deactivate g] ++ (processConvs env home l2).1)) =
        (Ev.ensureAccount home "" :: (processMetadataList env home).1) ++
        ((processConvs env home l1).1 ++
          (((Ev.activate g :: Ev.openMeta g ::
              (env.metaStream g).items.map (Ev.applyMeta g)) ++
            (Ev.openMsg g :: msgEvents g (env.msgStream g).items) ++
            [Ev.deactivate g]) ++ (processConvs env home l2).1)) from by simp]
    rw [groupEvents_append, groupEvents_append, groupEvents_append]
    rw [groupEvents_nil_of g _ hpart1,
      groupEvents_nil_of g _ (processConvs_no_group env home g l1 hnot1),
      groupEvents_nil_of g _ (processConvs_no_group env home g l2 hnot2),
      groupEvents_all g _ hconvall]
    simp
  · have hp1 : ∀ e ∈ Ev.ensureAccount home "" :: (processMetadataList env home).1,
        isLifecycle e = false := by
      intro e he
      rcases List.mem_cons.1 he with he | he
      · simp [he, isLifecycle]
      · rcases processMetadataList_events env home e he with hh | ⟨it, hh⟩ <;>
          simp [hh, isLifecycle]
    obtain ⟨hl1, _⟩ := processConvs_activeRun env home cl hloop2
    rw [show Ev.ensureAccount home "" :: (processMetadataList env home).1 ++
        (processConvs env home cl).1 =
        (Ev.ensureAccount home "" :: (processMetadataList env home).1) ++
        (processConvs env home cl).1 from rfl]
    rw [activeRun_append, activeRun_neutral _ [] hp1 (by simp),
      activeFold_neutral _ [] hp1, hl1]
    rfl

/-- C2 witness: the clean two-group environment at group `[2]`. -/
theorem C2_witness :
    wEnvClean.cfg = .ok [1] ∧ wEnvClean.convs = .ok [.ok [1], .ok [2]] ∧
      (replayLogsToDB wEnvClean).2 = none ∧ ([2] : Bytes) ≠ [1] ∧
      (groupEvents [2] (replayLogsToDB wEnvClean).1 =
        (Ev.activate [2] :: Ev.openMeta [2] ::
            (wEnvClean.metaStream [2]).items.map (Ev.applyMeta [2])) ++
          (Ev.openMsg [2] :: msgEvents [2] (wEnvClean.msgStream [2]).items) ++
          [Ev.deactivate [2]] ∧
        activeRun [] (replayLogsToDB wEnvClean).1 = true) :=
  ⟨rfl, rfl, by decide, by decide,
    C2_activate_scopes_and_single_activation wEnvClean [1] [2] [.ok [1], .ok [2]]
      rfl rfl (by decide) (by decide) (by decide)⟩

/-! ### Claim C3 -/

theorem convSetup_mem_nonhome (env : Env) (home g : Bytes) (e : Ev)
    (he : e ∈ (convSetup env home g).1) : g ≠ home := by
  intro hg
  subst hg
  rw [convSetup_home] at he
  simp at he

theorem processConv_events_source (env : Env) (home g : Bytes) :
    ∀ e ∈ (processConv env home g).1,
      e ∈ (convSetup env home g).1 ∨ e ∈ (processMessageList env g).1 ∨
        (g ≠ home ∧ e = Ev.deactivate g) := by
  intro e he
  unfold processConv at he
  cases hp : (convSetup env home g).2 with
  | some e2 =>
    simp only [hp] at he
    exact Or.inl he
  | none =>
    simp only [hp] at he
    cases hm : (processMessageList env g).2 with
    | some e2 =>
      simp only [hm, List.mem_append] at he
      rcases he with he | he
      · exact Or.inl he
      · exact Or.inr (Or.inl he)
    | none =>
      by_cases hg : g = home
      · simp only [hm, if_pos hg, List.mem_append] at he
        rcases he with he | he
        · exact Or.inl he
        · exact Or.inr (Or.inl he)
      · simp only [hm, if_neg hg] at he
        cases hd : env.deactivateErr g with
        | some x =>
          simp only [hd, List.mem_append, List.mem_singleton] at he
          rcases he with (he | he) | he
          · exact Or.inl he
          · exact Or.inr (Or.inl he)
          · exact Or.inr (Or.inr ⟨hg, he⟩)
        | none =>
          simp only [hd, List.mem_append, List.mem_singleton] at he
          rcases he with (he | he) | he
          · exact Or.inl he
          · exact Or.inr (Or.inl he)
          · exact Or.inr (Or.inr ⟨hg, he⟩)

theorem processConv_no_ensure (env : Env) (home g : Bytes) :
    ∀ e ∈ (processConv env home g).1, isEnsure e = false := by
  intro e he
  rcases processConv_events_source env home g e he with he | he | ⟨_, he⟩
  · rcases convSetup_events env home g e he with h | h | ⟨it, h⟩ <;>
      simp [h, isEnsure]
  · rcases processMessageList_events env g e he with h | ⟨r, m, h⟩ <;>
      simp [h, isEnsure]
  · simp [he, isEnsure]

theorem processConvs_no_ensure (env : Env) (home : Bytes) :
    ∀ l : List (Except Nat Bytes),
      ∀ e ∈ (processConvs env home l).1, isEnsure e = false := by
  intro l
  induction l with
  | nil => intro e he; simp [processConvs] at he
  | cons c rest ih =>
    intro e he
    cases c with
    | error n => rw [processConvs_cons_error] at he; simp at he
    | ok g =>
      cases hp : (processConv env home g).2 with
      | some x =>
        rw [processConvs_cons_ok_fail env home g x rest hp] at he
        exact processConv_no_ensure env home g e he
      | none =>
        rw [processConvs_cons_ok_clean env home g rest hp] at he
        rcases List.mem_append.1 he with he | he
        · exact processConv_no_ensure env home g e he
        · exact ih e he

theorem processConv_no_home_lifecycle (env : Env) (home g : Bytes) :
    Ev.activate home ∉ (processConv env home g).1 ∧
      Ev.deactivate home ∉ (processConv env home g).1 := by
  constructor
  · intro he
    rcases processConv_events_source env home g _ he with he | he | ⟨hg, he⟩
    · have hg := convSetup_mem_nonhome env home g _ he
      rcases convSetup_events env home g _ he with h | h | ⟨it, h⟩
      · injection h with h2; exact hg h2.symm
      · exact Ev.noConfusion h
      · exact Ev.noConfusion h
    · rcases processMessageList_events env g _ he with h | ⟨r, m, h⟩
      · exact Ev.noConfusion h
      · exact Ev.noConfusion h
    · exact Ev.noConfusion he
  · intro he
    rcases processConv_events_source env home g _ he with he | he | ⟨hg, he⟩
    · rcases convSetup_events env home g _ he with h | h | ⟨it, h⟩
      · exact Ev.noConfusion h
      · exact Ev.noConfusion h
      · exact Ev.noConfusion h
    · rcases processMessageList_events env g _ he with h | ⟨r, m, h⟩
      · exact Ev.noConfusion h
      · exact Ev.noConfusion h
    · injection he with h2; exact hg h2.symm

theorem processConvs_no_home_lifecycle (env : Env) (home : Bytes) :
    ∀ l : List (Except Nat Bytes),
      Ev.activate home ∉ (processConvs env home l).1 ∧
        Ev.deactivate home ∉ (processConvs env home l).1 := by
  intro l
  induction l with
  | nil => simp [processConvs]
  | cons c rest ih =>
    cases c with
    | error n => rw [processConvs_cons_error]; simp
    | ok g =>
      cases hp : (processConv env home g).2 with
      | some x =>
        rw [processConvs_cons_ok_fail env home g x rest hp]
        exact processConv_no_home_lifecycle env home g
      | none =>
        rw [processConvs_cons_ok_clean env home g rest hp]
        constructor
        · simp only [List.mem_append]
          rintro (he | he)
          · exact (processConv_no_home_lifecycle env home g).1 he
          · exact ih.1 he
        · simp only [List.mem_append]
          rintro (he | he)
          · exact (processConv_no_home_lifecycle env home g).2 he
          · exact ih.2 he

theorem processMetadataList_no_ensure (env : Env) (g : Bytes) :
    ∀ e ∈ (processMetadataList env g).1, isEnsure e = false := by
  intro e he
  rcases processMetadataList_events env g e he with h | ⟨it, h⟩ <;>
    simp [h, isEnsure]

theorem processMetadataList_no_lifecycle (env : Env) (g home : Bytes) :
    Ev.activate home ∉ (processMetadataList env g).1 ∧
      Ev.deactivate home ∉ (processMetadataList env g).1 := by
  constructor <;> intro he <;>
    rcases processMetadataList_events env g _ he with h | ⟨it, h⟩ <;>
      exact Ev.noConfusion h

/-- C3: whenever the configuration names home-group id `H`, the replay's very
first call is the creation (`addAccount`) of exactly one account record for
`H` with an empty display name — in particular it precedes every
metadata-apply call — and no `ActivateGroup` or `DeactivateGroup` call with
group id `H` is ever issued, on any run. -/
theorem C3_home_account_once_no_lifecycle
    (env : Env) (H : Bytes) (hcfg : env.cfg = .ok H) :
    (replayLogsToDB env).1.head? = some (.ensureAccount H "") ∧
      (replayLogsToDB env).1.filter isEnsure = [.ensureAccount H ""] ∧
      Ev.activate H ∉ (replayLogsToDB env).1 ∧
      Ev.deactivate H ∉ (replayLogsToDB env).1 := by
  unfold replayLogsToDB
  rw [hcfg]
  simp only
  cases hacc : env.addAccountErr with
  | some e => simp [isEnsure]
  | none =>
    simp only
    have hm1 : (processMetadataList env H).1.filter isEnsure = [] :=
      List.filter_eq_nil.2 fun e he => by
        simp [processMetadataList_no_ensure env H e he]
    have hm2 := processMetadataList_no_lifecycle env H H
    cases hmeta : (processMetadataList env H).2 with
    | some e =>
      refine ⟨rfl, ?_, ?_, ?_⟩
      · simp [List.filter_cons, isEnsure, hm1]
      · simp only [List.mem_cons]
        rintro (h | h)
        · exact Ev.noConfusion h
        · exact hm2.1 h
      · simp only [List.mem_cons]
        rintro (h | h)
        · exact Ev.noConfusion h
        · exact hm2.2 h
    | none =>
      cases hconvs : env.convs with
      | error e =>
        refine ⟨rfl, ?_, ?_, ?_⟩
        · simp [List.filter_cons, isEnsure, hm1]
        · simp only [List.mem_cons]
          rintro (h | h)
          · exact Ev.noConfusion h
          · exact hm2.1 h
        · simp only [List.mem_cons]
          rintro (h | h)
          · exact Ev.noConfusion h
          · exact hm2.2 h
      | ok cl =>
        have hl1 : (processConvs env H cl).1.filter isEnsure = [] :=
          List.filter_eq_nil.2 fun e he => by
            simp [processConvs_no_ensure env H cl e he]
        have hl2 := processConvs_no_home_lifecycle env H cl
        refine ⟨rfl, ?_, ?_, ?_⟩
        · simp [List.filter_cons, List.filter_append, isEnsure, hm1, hl1]
        · simp only [List.cons_append, List.mem_cons, List.mem_append]
          rintro (h | h | h)
          · exact Ev.noConfusion h
          · exact hm2.1 h
          · exact hl2.1 h
        · simp only [List.cons_append, List.mem_cons, List.mem_append]
          rintro (h | h | h)
          · exact Ev.noConfusion h
          · exact hm2.2 h
          · exact hl2.2 h

/-- C3 witness: the clean two-group environment, whose home group is `[1]`. -/
theorem C3_witness :
    wEnvClean.cfg = .ok [1] ∧
      ((replayLogsToDB wEnvClean).1.head? = some (.ensureAccount [1] "") ∧
        (replayLogsToDB wEnvClean).1.filter isEnsure = [.ensureAccount [1] ""] ∧
        Ev.activate [1] ∉ (replayLogsToDB wEnvClean).1 ∧
        Ev.deactivate [1] ∉ (replayLogsToDB wEnvClean).1) :=
  ⟨rfl, C3_home_account_once_no_lifecycle wEnvClean [1] rfl⟩

/-! ### Claim C4 -/

theorem replay_loop_scenario (env : Env) (home g : Bytes) (e : Err)
    (pre post : List (Except Nat Bytes))
    (hcfg : env.cfg = .ok home) (hacc : env.addAccountErr = none)
    (hmeta : (processMetadataList env home).2 = none)
    (hconvs : env.convs = .ok (pre ++ Except.ok g :: post))
    (hpre : ∀ c ∈ pre, convClean env home c = true)
    (hconvfail : (processConv env home g).2 = some e) :
    replayLogsToDB env =
      (Ev.ensureAccount home "" :: (processMetadataList env home).1 ++
        ((processConvs env home pre).1 ++ (processConv env home g).1), some e) := by
  rw [replay_clean_unfold env home (pre ++ Except.ok g :: post) hcfg hacc hmeta hconvs,
    processConvs_append_clean env home _ pre hpre,
    processConvs_cons_ok_fail env home g e post hconvfail]

theorem processMetadataList_fail_run (env : Env) (g : Bytes)
    (items : List Nat) (te : Nat)
    (hstream : env.metaStream g = ⟨none, items, .fail te, none⟩)
    (hhand : ∀ it ∈ items, env.metaHandler it = none) :
    processMetadataList env g =
      (Ev.openMeta g :: items.map (Ev.applyMeta g),
        some (.wrap .listMeta (.base te))) := by
  unfold processMetadataList
  rw [hstream]
  simp only
  rw [metaLoop_fail env g (.fail te) te rfl items 0 hhand]

/-- C4: if group G's metadata stream delivers j items and then a transport
error (handlers clean on those items), the replay aborts with a
metadata-replay error wrapping a metadata-list error wrapping the transport
error, `handleMetadataEvent` is called exactly j times for G, and no message
stream is opened for G or for any group at or after G's position — any
message-stream opening in the trace belongs to a conversation processed
before G.  G may be the home group (first disjunct) or a non-home group
reached in the conversation loop after a clean run-up (second disjunct). -/
theorem C4_meta_transport_error_aborts
    (env : Env) (home g : Bytes) (pre post : List (Except Nat Bytes))
    (items : List Nat) (te : Nat)
    (hcfg : env.cfg = .ok home) (hacc : env.addAccountErr = none)
    (hstream : env.metaStream g = ⟨none, items, .fail te, none⟩)
    (hhand : ∀ it ∈ items, env.metaHandler it = none)
    (hcase : g = home ∨
      (g ≠ home ∧ (processMetadataList env home).2 = none ∧
        env.convs = .ok (pre ++ Except.ok g :: post) ∧
        (∀ c ∈ pre, convClean env home c = true) ∧
        Except.ok g ∉ pre ∧ env.activateErr g = none)) :
    (replayLogsToDB env).2 =
        some (.wrap .replayMeta (.wrap .listMeta (.base te))) ∧
      metaCallsFor g (replayLogsToDB env).1 = items ∧
      (∀ g2 : Bytes, Ev.openMsg g2 ∈ (replayLogsToDB env).1 → Except.ok g2 ∈ pre) := by
  have hdrain := processMetadataList_fail_run env g items te hstream hhand
  rcases hcase with hg | ⟨hg, hmeta, hconvs, hpre, hnotpre, hact⟩
  · subst hg
    rw [replay_home_meta_fail env g (.wrap .listMeta (.base te)) hcfg hacc
      (by rw [hdrain])]
    refine ⟨rfl, ?_, ?_⟩
    · rw [hdrain]
      simp only
      rw [show Ev.ensureAccount g "" :: Ev.openMeta g :: items.map (Ev.applyMeta g) =
        Ev.ensureAccount g "" :: Ev.openMeta g :: items.map (Ev.applyMeta g) from rfl,
        metaCallsFor_cons_skip g _ _ (by simp [isApplyMetaFor]),
        metaCallsFor_cons_skip g _ _ (by simp [isApplyMetaFor]),
        metaCallsFor_map_self]
    · intro g2 hg2
      rw [hdrain] at hg2
      simp only [List.mem_cons] at hg2
      rcases hg2 with h | h | h
      · exact Ev.noConfusion h
      · exact Ev.noConfusion h
      · obtain ⟨it, _, h⟩ := List.mem_map.1 h
        exact Ev.noConfusion h
  · have hsetup : convSetup env home g =
        (Ev.activate g :: Ev.openMeta g :: items.map (Ev.applyMeta g),
          some (.wrap .replayMeta (.wrap .listMeta (.base te)))) := by
      unfold convSetup
      rw [if_neg hg, hact, hdrain]
    have hpc : processConv env home g =
        (Ev.activate g :: Ev.openMeta g :: items.map (Ev.applyMeta g),
          some (.wrap .replayMeta (.wrap .listMeta (.base te)))) := by
      unfold processConv
      rw [hsetup]
    rw [replay_loop_scenario env home g _ pre post hcfg hacc hmeta hconvs hpre
      (by rw [hpc])]
    refine ⟨rfl, ?_, ?_⟩
    · rw [hpc]
      simp only
      have hpart1 : ∀ e ∈ Ev.ensureAccount home "" ::
          (processMetadataList env home).1, evGroup e ≠ g := by
        intro e he
        rcases List.mem_cons.1 he with he | he
        · simp [he, evGroup]; exact fun h => hg h.symm
        · rw [processMetadataList_group env home e he]
          exact fun h => hg h.symm
      rw [show Ev.ensureAccount home "" :: (processMetadataList env home).1 ++
          ((processConvs env home pre).1 ++
            (Ev.activate g :: Ev.openMeta g :: items.map (Ev.applyMeta g))) =
          (Ev.ensureAccount home "" :: (processMetadataList env home).1) ++
          ((processConvs env home pre).1 ++
            (Ev.activate g :: Ev.openMeta g :: items.map (Ev.applyMeta g))) from rfl,
        metaCallsFor_append, metaCallsFor_append,
        metaCallsFor_nil_of_group g _ hpart1,
        metaCallsFor_nil_of_group g _ (processConvs_no_group env home g pre hnotpre),
        metaCallsFor_cons_skip g _ _ (by simp [isApplyMetaFor]),
        metaCallsFor_cons_skip g _ _ (by simp [isApplyMetaFor]),
        metaCallsFor_map_self]
      simp
    · intro g2 hg2
      rw [hpc] at hg2
      simp only [List.cons_append, List.mem_cons, List.mem_append] at hg2
      rcases hg2 with h | h
      · exact Ev.noConfusion h
      · rcases h with h | h
        · rcases processMetadataList_events env home _ h with hh | ⟨it, hh⟩
          · exact Ev.noConfusion hh
          · exact Ev.noConfusion hh
        · rcases h with h | h
          · have := processConvs_events env home pre _ h
            simpa [evGroup] using this
          · rcases h with h | h | h
            · exact Ev.noConfusion h
            · exact Ev.noConfusion h
            · obtain ⟨it, _, hh⟩ := List.mem_map.1 h
              exact Ev.noConfusion hh

/-- C4 witness: group `[2]`, listed after the home conversation, hits a
transport error after one metadata item; the replay aborts before opening any
message stream for `[2]` or `[3]`. -/
theorem C4_witness :
    wEnvMetaFail.cfg = .ok [1] ∧ wEnvMetaFail.addAccountErr = none ∧
      wEnvMetaFail.metaStream [2] = ⟨none, [20], .fail 5, none⟩ ∧
      ((replayLogsToDB wEnvMetaFail).2 =
          some (.wrap .replayMeta (.wrap .listMeta (.base 5))) ∧
        metaCallsFor [2] (replayLogsToDB wEnvMetaFail).1 = [20] ∧
        (∀ g2 : Bytes, Ev.openMsg g2 ∈ (replayLogsToDB wEnvMetaFail).1 →
          (Except.ok g2 : Except Nat Bytes) ∈
            ([Except.ok [1]] : List (Except Nat Bytes)))) :=
  ⟨rfl, rfl, rfl,
    C4_meta_transport_error_aborts wEnvMetaFail [1] [2] [.ok [1]] [.ok [3]] [20] 5
      rfl rfl rfl (by intro it _; rfl)
      (Or.inr ⟨by decide, by decide, rfl, by decide, by decide, rfl⟩)⟩

/-! ### Claim C5 -/

theorem msgCallsFor_cons_skip (g : Bytes) (e : Ev) (tr : List Ev)
    (h : isApplyMsgFor g e = false) :
    msgCallsFor g (e :: tr) = msgCallsFor g tr := by
  cases e with
  | applyMsg g2 r m =>
    simp only [isApplyMsgFor, decide_eq_false_iff_not] at h
    simp [msgCallsFor, h]
  | _ => simp [msgCallsFor]

theorem msgCallsFor_nil_of_none (g : Bytes) :
    ∀ tr : List Ev, (∀ e ∈ tr, isApplyMsgFor g e = false) →
      msgCallsFor g tr = [] := by
  intro tr
  induction tr with
  | nil => simp [msgCallsFor]
  | cons e rest ih =>
    intro h
    have hrest := ih fun x hx => h x (by simp [hx])
    rw [msgCallsFor_cons_skip g e rest (h e (by simp)), hrest]

theorem processMessageList_deser_run (env : Env) (g : Bytes)
    (a b : List MsgItem) (bad : MsgItem) (stop : Stop)
    (hstream : env.msgStream g = ⟨none, a ++ bad :: b, stop, none⟩)
    (hbad : bad.decoded = none)
    (ha : ∀ it ∈ a, ∃ m, it.decoded = some m ∧ env.msgHandler m = none) :
    processMessageList env g =
      (Ev.openMsg g :: msgEvents g a,
        some (.wrap .deserialization (.base bad.raw))) := by
  unfold processMessageList
  rw [hstream]
  simp only
  rw [msgLoop_deser env g stop bad hbad a b 0 ha]

theorem processConv_msgfail (env : Env) (home g : Bytes) (e : Err)
    (hsetup : (convSetup env home g).2 = none)
    (hmsg : (processMessageList env g).2 = some e) :
    processConv env home g =
      ((convSetup env home g).1 ++ (processMessageList env g).1,
        some (.wrap .replayMsg e)) := by
  simp only [processConv, hsetup, hmsg]

/-- C5: if the i-th item of group G's message stream fails to unmarshal
(after i-1 items that decode and are accepted), the replay aborts with a
message-replay error wrapping a deserialization error (a kind distinct from
the transport list-error kinds) around the bad item's raw bytes, and
`handleAppMessage` is invoked for exactly the first i-1 items — nothing after
the failing item is applied. -/
theorem C5_deserialization_stops_message_drain
    (env : Env) (home g : Bytes) (pre post : List (Except Nat Bytes))
    (a b : List MsgItem) (bad : MsgItem) (stop : Stop)
    (hcfg : env.cfg = .ok home) (hacc : env.addAccountErr = none)
    (hmeta : (processMetadataList env home).2 = none)
    (hconvs : env.convs = .ok (pre ++ Except.ok g :: post))
    (hpre : ∀ c ∈ pre, convClean env home c = true)
    (hnotpre : Except.ok g ∉ pre)
    (hsetup : (convSetup env home g).2 = none)
    (hstream : env.msgStream g = ⟨none, a ++ bad :: b, stop, none⟩)
    (hbad : bad.decoded = none)
    (ha : ∀ it ∈ a, ∃ m, it.decoded = some m ∧ env.msgHandler m = none) :
    (replayLogsToDB env).2 =
        some (.wrap .replayMsg (.wrap .deserialization (.base bad.raw))) ∧
      msgCallsFor g (replayLogsToDB env).1 = decodedPairs a := by
  have hdrain := processMessageList_deser_run env g a b bad stop hstream hbad ha
  have hpc := processConv_msgfail env home g _ hsetup (by rw [hdrain])
  rw [replay_loop_scenario env home g _ pre post hcfg hacc hmeta hconvs hpre
    (by rw [hpc])]
  refine ⟨rfl, ?_⟩
  rw [hpc, hdrain]
  simp only
  have hpart1 : ∀ e ∈ Ev.ensureAccount home "" ::
      (processMetadataList env home).1, isApplyMsgFor g e = false := by
    intro e he
    rcases List.mem_cons.1 he with he | he
    · simp [he, isApplyMsgFor]
    · exact processMetadataList_no_msg env home g e he
  have hpre2 : ∀ e ∈ (processConvs env home pre).1, isApplyMsgFor g e = false :=
    fun e he => isApplyMsgFor_false_of_group g e
      (processConvs_no_group env home g pre hnotpre e he)
  have hsetup2 : ∀ e ∈ (convSetup env home g).1, isApplyMsgFor g e = false := by
    intro e he
    rcases convSetup_events env home g e he with h | h | ⟨it, h⟩ <;>
      simp [h, isApplyMsgFor]
  rw [show Ev.ensureAccount home "" :: (processMetadataList env home).1 ++
      ((processConvs env home pre).1 ++
        ((convSetup env home g).1 ++ (Ev.openMsg g :: msgEvents g a))) =
      (Ev.ensureAccount home "" :: (processMetadataList env home).1) ++
      ((processConvs env home pre).1 ++
        ((convSetup env home g).1 ++ (Ev.openMsg g :: msgEvents g a))) from rfl,
    msgCallsFor_append, msgCallsFor_append, msgCallsFor_append,
    msgCallsFor_nil_of_none g _ hpart1, msgCallsFor_nil_of_none g _ hpre2,
    msgCallsFor_nil_of_none g _ hsetup2,
    msgCallsFor_cons_skip g _ _ (by simp [isApplyMsgFor]),
    msgCallsFor_msgEvents_self]
  simp

/-- C5 witness: group `[2]`'s second message fails to unmarshal; only the
first message is applied and the replay aborts with a
deserialization-wrapping message-replay error. -/
theorem C5_witness :
    wEnvMsgBad.cfg = .ok [1] ∧
      wEnvMsgBad.msgStream [2] =
        ⟨none, [⟨30, some 130⟩] ++ (⟨31, none⟩ : MsgItem) :: [⟨32, some 132⟩],
          .eof, none⟩ ∧
      ((replayLogsToDB wEnvMsgBad).2 =
          some (.wrap .replayMsg (.wrap .deserialization (.base 31))) ∧
        msgCallsFor [2] (replayLogsToDB wEnvMsgBad).1 =
          decodedPairs [⟨30, some 130⟩]) :=
  ⟨rfl, rfl,
    C5_deserialization_stops_message_drain wEnvMsgBad [1] [2]
      [.ok [1]] [.ok [3]] [⟨30, some 130⟩] [⟨32, some 132⟩] ⟨31, none⟩ .eof
      rfl rfl (by decide) rfl (by decide) (by decide) (by decide) rfl rfl
      (by intro it hit; exact ⟨130, by simp_all, rfl⟩)⟩

/-! ### Claim C6 -/

theorem convSetup_err_kind (env : Env) (home g : Bytes) (e : Err)
    (h : (convSetup env home g).2 = some e) :
    topKind e = some .groupActivate ∨ topKind e = some .replayMeta := by
  unfold convSetup at h
  by_cases hg : g = home
  · simp [hg] at h
  · simp only [if_neg hg] at h
    cases ha : env.activateErr g with
    | some x =>
      simp only [ha] at h
      injection h with h
      subst h
      exact Or.inl rfl
    | none =>
      simp only [ha] at h
      cases hm : (processMetadataList env g).2 with
      | some x =>
        simp only [hm] at h
        injection h with h
        subst h
        exact Or.inr rfl
      | none => simp [hm] at h

theorem processConv_err_kind (env : Env) (home g : Bytes) (e : Err)
    (h : (processConv env home g).2 = some e) :
    ∃ k, topKind e = some k ∧
      k ∈ [ErrKind.groupActivate, .replayMeta, .replayMsg, .groupDeactivate] := by
  unfold processConv at h
  cases hp : (convSetup env home g).2 with
  | some e2 =>
    simp only [hp] at h
    injection h with h
    subst h
    rcases convSetup_err_kind env home g e2 hp with hk | hk
    · exact ⟨.groupActivate, hk, by simp⟩
    · exact ⟨.replayMeta, hk, by simp⟩
  | none =>
    simp only [hp] at h
    cases hm : (processMessageList env g).2 with
    | some e2 =>
      simp only [hm] at h
      injection h with h
      subst h
      exact ⟨.replayMsg, rfl, by simp⟩
    | none =>
      by_cases hg : g = home
      · simp [hm, if_pos hg] at h
      · simp only [hm, if_neg hg] at h
        cases hd : env.deactivateErr g with
        | some x =>
          simp only [hd] at h
          injection h with h
          subst h
          exact ⟨.groupDeactivate, rfl, by simp⟩
        | none => simp [hd] at h

theorem processConvs_err_kind (env : Env) (home : Bytes) :
    ∀ (l : List (Except Nat Bytes)) (e : Err),
      (processConvs env home l).2 = some e →
      ∃ k, topKind e = some k ∧
        k ∈ [ErrKind.deserialization, .groupActivate, .replayMeta, .replayMsg,
          .groupDeactivate] := by
  intro l
  induction l with
  | nil => intro e h; simp [processConvs] at h
  | cons c rest ih =>
    intro e h
    cases c with
    | error n =>
      rw [processConvs_cons_error] at h
      injection h with h
      subst h
      exact ⟨.deserialization, rfl, by simp⟩
    | ok g =>
      cases hp : (processConv env home g).2 with
      | some x =>
        rw [processConvs_cons_ok_fail env home g x rest hp] at h
        injection h with h
        subst h
        obtain ⟨k, hk, hmem⟩ := processConv_err_kind env home g x hp
        refine ⟨k, hk, ?_⟩
        simp only [List.mem_cons, List.mem_singleton] at hmem ⊢
        tauto
      | none =>
        rw [processConvs_cons_ok_clean env home g rest hp] at h
        exact ih e h

/-- C6 counterexample: the claim says every error is one of the distinct
taxonomy kinds — in particular that a configuration-lookup failure yields a
configuration-fetch kind — and never a bare generic kind.  In the code
(replay.go:27) a configuration failure is wrapped with the generic
`errcode.TODO` placeholder, the same generic kind used for message-handler
errors (replay.go:160), so the two failure categories are not distinguished
by a dedicated kind. -/
theorem C6_counterexample :
    (replayLogsToDB wEnvCfgFail).2 = some (.wrap .todo (.base 7)) ∧
      (replayLogsToDB wEnvHandlerErr).2 =
        some (.wrap .replayMsg (.wrap .todo (.base 9))) := by
  constructor <;> decide

/-- C6 (amended): every error returned by Replay is a wrapped errcode — its
outermost kind is one of TODO, ErrDBWrite, ErrDBRead, ErrDeserialization,
ErrGroupActivate, ErrGroupDeactivate, ErrReplayProcessGroupMetadata,
ErrReplayProcessGroupMessage, wrapping the underlying failure and never a
bare unwrapped error — but a configuration-lookup failure is wrapped in the
generic TODO kind, not in a distinct configuration-fetch kind. -/
theorem C6_error_kinds_amended (env : Env) (e : Err)
    (h : (replayLogsToDB env).2 = some e) :
    (∃ k, topKind e = some k ∧
        k ∈ [ErrKind.todo, .dbWrite, .dbRead, .deserialization, .groupActivate,
          .groupDeactivate, .replayMeta, .replayMsg]) ∧
      (∀ n, env.cfg = .error n → e = .wrap .todo (.base n)) := by
  unfold replayLogsToDB at h
  cases hcfg : env.cfg with
  | error n =>
    rw [hcfg] at h
    simp only at h
    injection h with h
    subst h
    refine ⟨⟨.todo, rfl, by simp⟩, ?_⟩
    intro n2 hn2
    injection hn2 with hn2
    rw [hn2]
  | ok home =>
    rw [hcfg] at h
    simp only at h
    cases hacc : env.addAccountErr with
    | some x =>
      simp only [hacc] at h
      injection h with h
      subst h
      exact ⟨⟨.dbWrite, rfl, by simp⟩, fun n hn => Except.noConfusion hn⟩
    | none =>
      simp only [hacc] at h
      cases hmeta : (processMetadataList env home).2 with
      | some x =>
        simp only [hmeta] at h
        injection h with h
        subst h
        exact ⟨⟨.replayMeta, rfl, by simp⟩, fun n hn => Except.noConfusion hn⟩
      | none =>
        simp only [hmeta] at h
        cases hconvs : env.convs with
        | error x =>
          simp only [hconvs] at h
          injection h with h
          subst h
          exact ⟨⟨.dbRead, rfl, by simp⟩, fun n hn => Except.noConfusion hn⟩
        | ok cl =>
          simp only [hconvs] at h
          obtain ⟨k, hk, hmem⟩ := processConvs_err_kind env home cl e (by simpa using h)
          refine ⟨⟨k, hk, ?_⟩, fun n hn => Except.noConfusion hn⟩
          simp only [List.mem_cons, List.mem_singleton] at hmem ⊢
          tauto

/-- C6 witness for the amended theorem: the configuration-failure
environment. -/
theorem C6_witness :
    (replayLogsToDB wEnvCfgFail).2 = some (.wrap .todo (.base 7)) ∧
      ((∃ k, topKind (Err.wrap .todo (.base 7)) = some k ∧
          k ∈ [ErrKind.todo, .dbWrite, .dbRead, .deserialization, .groupActivate,
            .groupDeactivate, .replayMeta, .replayMsg]) ∧
        (∀ n, wEnvCfgFail.cfg = .error n →
          Err.wrap .todo (.base 7) = .wrap .todo (.base n))) :=
  ⟨by decide, C6_error_kinds_amended wEnvCfgFail (.wrap .todo (.base 7)) (by decide)⟩

/-! ### Claim C7 -/

theorem processMetadataList_cancel_run (env : Env) (g : Bytes)
    (items : List Nat) (stop : Stop) (k : Nat)
    (hstream : env.metaStream g = ⟨none, items, stop, some k⟩)
    (hlen : k ≤ items.length)
    (hhand : ∀ it ∈ items.take k, env.metaHandler it = none) :
    processMetadataList env g =
      (Ev.openMeta g :: (items.take k).map (Ev.applyMeta g),
        some (.wrapNil .listMeta)) := by
  unfold processMetadataList
  rw [hstream]
  simp only
  have hrun := metaLoop_cancel env g stop k items 0 hlen hhand
  rw [Nat.zero_add] at hrun
  rw [hrun]

theorem processMessageList_cancel_run (env : Env) (g : Bytes)
    (items : List MsgItem) (stop : Stop) (k : Nat)
    (hstream : env.msgStream g = ⟨none, items, stop, some k⟩)
    (hlen : k ≤ items.length)
    (hhand : ∀ it ∈ items.take k, ∃ m, it.decoded = some m ∧ env.msgHandler m = none) :
    processMessageList env g =
      (Ev.openMsg g :: msgEvents g (items.take k),
        some (.wrapNil .listMsg)) := by
  unfold processMessageList
  rw [hstream]
  simp only
  have hrun := msgLoop_cancel env g stop k items 0 hlen hhand
  rw [Nat.zero_add] at hrun
  rw [hrun]

/-- C7: in both log drainers the cancellation of the enclosing scope is
checked at the top of the loop, before each receive: when the scope reports
cancellation from loop index k onward, exactly the first k items are handed
to the handler, the drain terminates, and Replay returns a non-nil error of
the corresponding list-error kind (wrapping the nil open-error, per
replay.go:109/144) — cancellation is never swallowed into a success result.
The first conjunct exercises the metadata drainer (home group), the second
the message drainer (a group reached in the conversation loop). -/
theorem C7_cancellation_terminates_with_list_error :
    (∀ (env : Env) (home : Bytes) (items : List Nat) (stop : Stop) (k : Nat),
      env.cfg = .ok home → env.addAccountErr = none →
      env.metaStream home = ⟨none, items, stop, some k⟩ →
      k ≤ items.length →
      (∀ it ∈ items.take k, env.metaHandler it = none) →
      (replayLogsToDB env).2 = some (.wrap .replayMeta (.wrapNil .listMeta)) ∧
        metaCallsFor home (replayLogsToDB env).1 = items.take k) ∧
    (∀ (env : Env) (home g : Bytes) (pre post : List (Except Nat Bytes))
      (items : List MsgItem) (stop : Stop) (k : Nat),
      env.cfg = .ok home → env.addAccountErr = none →
      (processMetadataList env home).2 = none →
      env.convs = .ok (pre ++ Except.ok g :: post) →
      (∀ c ∈ pre, convClean env home c = true) →
      Except.ok g ∉ pre →
      (convSetup env home g).2 = none →
      env.msgStream g = ⟨none, items, stop, some k⟩ →
      k ≤ items.length →
      (∀ it ∈ items.take k, ∃ m, it.decoded = some m ∧ env.msgHandler m = none) →
      (replayLogsToDB env).2 = some (.wrap .replayMsg (.wrapNil .listMsg)) ∧
        msgCallsFor g (replayLogsToDB env).1 = decodedPairs (items.take k)) := by
  constructor
  · intro env home items stop k hcfg hacc hstream hlen hhand
    have hdrain := processMetadataList_cancel_run env home items stop k hstream hlen hhand
    rw [replay_home_meta_fail env home (.wrapNil .listMeta) hcfg hacc (by rw [hdrain])]
    refine ⟨rfl, ?_⟩
    rw [hdrain]
    simp only
    rw [metaCallsFor_cons_skip home _ _ (by simp [isApplyMetaFor]),
      metaCallsFor_cons_skip home _ _ (by simp [isApplyMetaFor]),
      metaCallsFor_map_self]
  · intro env home g pre post items stop k hcfg hacc hmeta hconvs hpre hnotpre
      hsetup hstream hlen hhand
    have hdrain := processMessageList_cancel_run env g items stop k hstream hlen hhand
    have hpc := processConv_msgfail env home g _ hsetup (by rw [hdrain])
    rw [replay_loop_scenario env home g _ pre post hcfg hacc hmeta hconvs hpre
      (by rw [hpc])]
    refine ⟨rfl, ?_⟩
    rw [hpc, hdrain]
    simp only
    have hpart1 : ∀ e ∈ Ev.ensureAccount home "" ::
        (processMetadataList env home).1, isApplyMsgFor g e = false := by
      intro e he
      rcases List.mem_cons.1 he with he | he
      · simp [he, isApplyMsgFor]
      · exact processMetadataList_no_msg env home g e he
    have hpre2 : ∀ e ∈ (processConvs env home pre).1, isApplyMsgFor g e = false :=
      fun e he => isApplyMsgFor_false_of_group g e
        (processConvs_no_group env home g pre hnotpre e he)
    have hsetup2 : ∀ e ∈ (convSetup env home g).1, isApplyMsgFor g e = false := by
      intro e he
      rcases convSetup_events env home g e he with h | h | ⟨it, h⟩ <;>
        simp [h, isApplyMsgFor]
    rw [show Ev.ensureAccount home "" :: (processMetadataList env home).1 ++
        ((processConvs env home pre).1 ++
          ((convSetup env home g).1 ++ (Ev.openMsg g :: msgEvents g (items.take k)))) =
        (Ev.ensureAccount home "" :: (processMetadataList env home).1) ++
        ((processConvs env home pre).1 ++
          ((convSetup env home g).1 ++
            (Ev.openMsg g :: msgEvents g (items.take k)))) from rfl,
      msgCallsFor_append, msgCallsFor_append, msgCallsFor_append,
      msgCallsFor_nil_of_none g _ hpart1, msgCallsFor_nil_of_none g _ hpre2,
      msgCallsFor_nil_of_none g _ hsetup2,
      msgCallsFor_cons_skip g _ _ (by simp [isApplyMsgFor]),
      msgCallsFor_msgEvents_self]
    simp

/-- C7 witness: metadata drain of the home group cancelled at index 1 (one of
two items applied), and message drain of group `[2]` cancelled at index 1
(one of two messages applied). -/
theorem C7_witness :
    ((replayLogsToDB wEnvMetaCancel).2 =
        some (.wrap .replayMeta (.wrapNil .listMeta)) ∧
      metaCallsFor [1] (replayLogsToDB wEnvMetaCancel).1 = [10]) ∧
    ((replayLogsToDB wEnvMsgCancel).2 =
        some (.wrap .replayMsg (.wrapNil .listMsg)) ∧
      msgCallsFor [2] (replayLogsToDB wEnvMsgCancel).1 = [(30, 130)]) :=
  ⟨C7_cancellation_terminates_with_list_error.1 wEnvMetaCancel [1] [10, 11] .eof 1
      rfl rfl rfl (by decide) (by intro it _; rfl),
    C7_cancellation_terminates_with_list_error.2 wEnvMsgCancel [1] [2] [] []
      [⟨30, some 130⟩, ⟨31, some 131⟩] .eof 1
      rfl rfl (by decide) rfl (by intro c hc; simp at hc) (by decide) (by decide)
      rfl (by decide)
      (by
        intro it hit
        simp only [List.take, List.mem_singleton] at hit
        subst hit
        exact ⟨130, rfl, rfl⟩)⟩

/-! ### Claim C8 -/

/-- C8: for a non-home group whose metadata drain or message drain fails
(after a successful activation), the replay returns an error without ever
calling `DeactivateGroup` for that group — deactivation lives only on the
success path of the iteration — so the failing group is left in the
activated state (`ActivateGroup` was called, `DeactivateGroup` never). -/
theorem C8_drain_failure_skips_deactivate
    (env : Env) (home g : Bytes) (pre post : List (Except Nat Bytes))
    (hcfg : env.cfg = .ok home) (hacc : env.addAccountErr = none)
    (hmeta : (processMetadataList env home).2 = none)
    (hconvs : env.convs = .ok (pre ++ Except.ok g :: post))
    (hpre : ∀ c ∈ pre, convClean env home c = true)
    (hnotpre : Except.ok g ∉ pre)
    (hg : g ≠ home)
    (hact : env.activateErr g = none)
    (hfail : ¬(metaClean env g = true ∧ msgClean env g = true)) :
    (∃ e, (replayLogsToDB env).2 = some e) ∧
      Ev.activate g ∈ (replayLogsToDB env).1 ∧
      Ev.deactivate g ∉ (replayLogsToDB env).1 := by
  have hpart1 : ∀ e ∈ Ev.ensureAccount home "" ::
      (processMetadataList env home).1, e ≠ Ev.deactivate g := by
    intro e he
    rcases List.mem_cons.1 he with he | he
    · simp [he]
    · rcases processMetadataList_events env home e he with h | ⟨it, h⟩ <;> simp [h]
  have hpre1 : ∀ e ∈ (processConvs env home pre).1, e ≠ Ev.deactivate g := by
    intro e he hEq
    have := processConvs_no_group env home g pre hnotpre e he
    rw [hEq] at this
    exact this rfl
  cases hgm : (processMetadataList env g).2 with
  | some em =>
    have hsetup : convSetup env home g =
        (Ev.activate g :: (processMetadataList env g).1,
          some (.wrap .replayMeta em)) := by
      simp only [convSetup, if_neg hg, hact, hgm]
    have hpc : processConv env home g =
        (Ev.activate g :: (processMetadataList env g).1,
          some (.wrap .replayMeta em)) := by
      unfold processConv
      rw [hsetup]
    rw [replay_loop_scenario env home g _ pre post hcfg hacc hmeta hconvs hpre
      (by rw [hpc])]
    refine ⟨⟨_, rfl⟩, ?_, ?_⟩
    · rw [hpc]
      simp
    · rw [hpc]
      simp only [List.cons_append, List.mem_cons, List.mem_append]
      rintro (h | h)
      · exact Ev.noConfusion h
      · rcases h with h | h
        · exact hpart1 _ (by simp [h]) rfl
        · rcases h with h | h
          · exact hpre1 _ h rfl
          · rcases h with h | h
            · exact Ev.noConfusion h
            · rcases processMetadataList_events env g _ h with hh | ⟨it, hh⟩ <;>
                exact Ev.noConfusion hh
  | none =>
    cases hms : (processMessageList env g).2 with
    | none =>
      exact absurd ⟨by simp [metaClean, hgm], by simp [msgClean, hms]⟩ hfail
    | some em =>
      obtain ⟨_, _, hsetupshape⟩ := convSetup_none env home g hg (by
        simp only [convSetup, if_neg hg, hact, hgm])
      have hpc := processConv_msgfail env home g em (by rw [hsetupshape]) hms
      rw [replay_loop_scenario env home g _ pre post hcfg hacc hmeta hconvs hpre
        (by rw [hpc])]
      refine ⟨⟨_, rfl⟩, ?_, ?_⟩
      · rw [hpc, hsetupshape]
        simp
      · rw [hpc]
        simp only [List.cons_append, List.mem_cons, List.mem_append]
        rintro (h | h)
        · exact Ev.noConfusion h
        · rcases h with h | h
          · exact hpart1 _ (by simp [h]) rfl
          · rcases h with h | h
            · exact hpre1 _ h rfl
            · rcases h with h | h
              · rcases convSetup_events env home g _ h with hh | hh | ⟨it, hh⟩ <;>
                  exact Ev.noConfusion hh
              · rcases processMessageList_events env g _ h with hh | ⟨r, m, hh⟩ <;>
                  exact Ev.noConfusion hh

/-- C8 witness: group `[2]`'s message stream ends in a transport error; the
replay fails, `[2]` was activated and is never deactivated. -/
theorem C8_witness :
    wEnvMsgFail.cfg = .ok [1] ∧ ([2] : Bytes) ≠ [1] ∧
      ¬(metaClean wEnvMsgFail [2] = true ∧ msgClean wEnvMsgFail [2] = true) ∧
      ((∃ e, (replayLogsToDB wEnvMsgFail).2 = some e) ∧
        Ev.activate [2] ∈ (replayLogsToDB wEnvMsgFail).1 ∧
        Ev.deactivate [2] ∉ (replayLogsToDB wEnvMsgFail).1) :=
  ⟨rfl, by decide, by decide,
    C8_drain_failure_skips_deactivate wEnvMsgFail [1] [2] [.ok [1]] [.ok [3]]
      rfl rfl (by decide) rfl (by decide) (by decide) (by decide) rfl (by decide)⟩

/-! ### Claim C9 -/

/-- C9: if a conversation record's stored public key fails base64 decoding,
the whole run aborts with a deserialization error: the trace stops right
before that conversation, so no activation, no stream opening and no handler
call happens for it or for any conversation after it in store order — every
event of the run belongs to the home group or to a conversation listed
before the bad record. -/
theorem C9_bad_conversation_key_aborts
    (env : Env) (home : Bytes) (pre post : List (Except Nat Bytes)) (n : Nat)
    (hcfg : env.cfg = .ok home) (hacc : env.addAccountErr = none)
    (hmeta : (processMetadataList env home).2 = none)
    (hconvs : env.convs = .ok (pre ++ Except.error n :: post))
    (hpre : ∀ c ∈ pre, convClean env home c = true) :
    (replayLogsToDB env).2 = some (.wrap .deserialization (.base n)) ∧
      (replayLogsToDB env).1 =
        Ev.ensureAccount home "" :: (processMetadataList env home).1 ++
          (processConvs env home pre).1 ∧
      (∀ e ∈ (replayLogsToDB env).1,
        evGroup e = home ∨ Except.ok (evGroup e) ∈ pre) := by
  rw [replay_clean_unfold env home (pre ++ Except.error n :: post) hcfg hacc hmeta
    hconvs, processConvs_append_clean env home _ pre hpre,
    processConvs_cons_error env home n post]
  simp only [List.append_nil]
  refine ⟨trivial, trivial, ?_⟩
  intro e he
  simp only [List.cons_append, List.mem_cons, List.mem_append] at he
  rcases he with h | h
  · exact Or.inl (by simp [h, evGroup])
  · rcases h with h | h
    · exact Or.inl (processMetadataList_group env home e h)
    · exact Or.inr (processConvs_events env home pre e h)

/-- C9 witness: the second conversation record fails to decode (error 9); the
run aborts after the clean first conversation `[2]`, touching neither the bad
record nor `[3]`. -/
theorem C9_witness :
    wEnvBadConv.cfg = .ok [1] ∧
      wEnvBadConv.convs = .ok [.ok [2], .error 9, .ok [3]] ∧
      ((replayLogsToDB wEnvBadConv).2 = some (.wrap .deserialization (.base 9)) ∧
        (replayLogsToDB wEnvBadConv).1 =
          Ev.ensureAccount [1] "" :: (processMetadataList wEnvBadConv [1]).1 ++
            (processConvs wEnvBadConv [1] [.ok [2]]).1 ∧
        (∀ e ∈ (replayLogsToDB wEnvBadConv).1,
          evGroup e = [1] ∨ (Except.ok (evGroup e) : Except Nat Bytes) ∈
            ([Except.ok [2]] : List (Except Nat Bytes)))) :=
  ⟨rfl, rfl,
    C9_bad_conversation_key_aborts wEnvBadConv [1] [.ok [2]] [.ok [3]] 9
      rfl rfl (by decide) rfl (by decide)⟩

/-! ### Claim C10 -/

/-- C10: the home group's message log is drained only when the home group
appears in the store's conversation list.  When the list does not contain the
home-group id, no run ever opens the home group's message stream or makes a
message-apply call for it (first conjunct, for arbitrary runs), and if every
other step is clean the replay still completes successfully (second
conjunct). -/
theorem C10_home_message_drain_requires_listing
    (env : Env) (home : Bytes) (cl : List (Except Nat Bytes))
    (hcfg : env.cfg = .ok home)
    (hconvs : env.convs = .ok cl)
    (hnothome : Except.ok home ∉ cl) :
    (Ev.openMsg home ∉ (replayLogsToDB env).1 ∧
      hasMsgFor home (replayLogsToDB env).1 = false) ∧
      (env.addAccountErr = none → (processMetadataList env home).2 = none →
        (∀ c ∈ cl, convClean env home c = true) →
        (replayLogsToDB env).2 = none) := by
  have hloopmsg : ∀ e ∈ (processConvs env home cl).1, isApplyMsgFor home e = false := by
    intro e he
    cases hb : isApplyMsgFor home e with
    | false => rfl
    | true =>
      exfalso
      cases e <;> simp [isApplyMsgFor] at hb
      case applyMsg g2 r m =>
        have := processConvs_events env home cl _ he
        rw [show evGroup (Ev.applyMsg g2 r m) = g2 from rfl, hb] at this
        exact hnothome this
  have hloopopen : Ev.openMsg home ∉ (processConvs env home cl).1 := by
    intro he
    have := processConvs_events env home cl _ he
    exact hnothome (by simpa [evGroup] using this)
  have hm1 : Ev.openMsg home ∉ (processMetadataList env home).1 := by
    intro he
    rcases processMetadataList_events env home _ he with h | ⟨it, h⟩ <;>
      exact Ev.noConfusion h
  constructor
  · unfold replayLogsToDB
    rw [hcfg]
    simp only
    cases hacc : env.addAccountErr with
    | some x =>
      refine ⟨by simp, ?_⟩
      simp [hasMsgFor, isApplyMsgFor]
    | none =>
      simp only
      cases hmeta : (processMetadataList env home).2 with
      | some x =>
        refine ⟨?_, ?_⟩
        · simp only [List.mem_cons]
          rintro (h | h)
          · exact Ev.noConfusion h
          · exact hm1 h
        · apply hasMsgFor_false_of_none
          intro e he
          rcases List.mem_cons.1 he with he | he
          · simp [he, isApplyMsgFor]
          · exact processMetadataList_no_msg env home home e he
      | none =>
        rw [hconvs]
        simp only
        refine ⟨?_, ?_⟩
        · simp only [List.cons_append, List.mem_cons, List.mem_append]
          rintro (h | h | h)
          · exact Ev.noConfusion h
          · exact hm1 h
          · exact hloopopen h
        · apply hasMsgFor_false_of_none
          intro e he
          simp only [List.cons_append, List.mem_cons, List.mem_append] at he
          rcases he with h | h | h
          · simp [h, isApplyMsgFor]
          · exact processMetadataList_no_msg env home home e h
          · exact hloopmsg e h
  · intro hacc hmeta hclean
    rw [replay_clean_unfold env home cl hcfg hacc hmeta hconvs]
    simp only
    exact (processConvs_none_iff env home cl).2 hclean

/-- C10 witness: home group `[1]` absent from the conversation list; the run
succeeds with no home-group message drain. -/
theorem C10_witness :
    wEnvNoHome.cfg = .ok [1] ∧ wEnvNoHome.convs = .ok [.ok [2]] ∧
      (Except.ok ([1] : Bytes) ∉ ([.ok [2]] : List (Except Nat Bytes))) ∧
      (Ev.openMsg [1] ∉ (replayLogsToDB wEnvNoHome).1 ∧
        hasMsgFor [1] (replayLogsToDB wEnvNoHome).1 = false) ∧
      (replayLogsToDB wEnvNoHome).2 = none :=
  have h := C10_home_message_drain_requires_listing wEnvNoHome [1] [.ok [2]]
    rfl rfl (by decide)
  ⟨rfl, rfl, by decide, h.1, h.2 rfl (by decide) (by decide)⟩

end BertyReplay
